import Mathlib

/-!
Shallow embedding of the f8vision-web family-graph layout core:
graph construction (`FamilyGraph`), generation assignment, the
Barnes-Hut octree and the force-directed layout solver, together with
theorems settling the specification claims.

JavaScript floating-point arithmetic is modelled over `ℚ` (exact field
arithmetic); `Math.pow(x, 0.5)` is modelled as `Real.sqrt`, and the
transcendental functions `Math.cos` / `Math.sin` / `Math.sqrt` /
`Math.random` consumed by the layout solver are abstract function
parameters.
-/

namespace F8

/-- A person record as supplied to the graph builder
(`Person` in `src/types`); optional fields are `Option`s and
identifier lists default to empty. -/
structure Person where
  id : String
  biography : Option String := none
  parentIds : List String := []
  spouseIds : List String := []
  childIds : List String := []
  generation : Option Int := none
  status : Option String := none
  deriving Repr, DecidableEq

/-- Dataset metadata (`FamilyData.meta`). -/
structure FamilyMeta where
  centeredPersonId : Option String := none
  deriving Repr, DecidableEq

/-- The family dataset consumed by `FamilyGraph` (`FamilyData`). -/
structure FamilyData where
  people : List Person
  meta : Option FamilyMeta := none
  deriving Repr, DecidableEq

/-- JavaScript `String.prototype.trim`, modelled on the character
list: drop whitespace from both ends. -/
def jsTrim (l : List Char) : List Char :=
  ((l.dropWhile Char.isWhitespace).reverse.dropWhile
    Char.isWhitespace).reverse

/-- `biography.trim().length`. -/
def trimmedLength (s : String) : Nat :=
  (jsTrim s.data).length

/-- `calculateBiographyWeight` from `src/parser/parser.ts`:
`if (!biography) return 0`; trim; if the trimmed length is zero return
0; otherwise `Math.pow(Math.min(length, 1000) / 1000, 0.5)`, modelled
as `Real.sqrt` of the rational normalisation. -/
noncomputable def calculateBiographyWeight : Option String → ℝ
  | none => 0
  | some biography =>
    if biography = "" then 0
    else
      let length := trimmedLength biography
      if length = 0 then 0
      else Real.sqrt ((min (length : ℚ) 1000) / 1000 : ℚ)

/-- The meta focal identifier, when the `meta` object and its
`centeredPersonId` field are both present. -/
def metaFocal (familyData : FamilyData) : Option String :=
  familyData.meta.bind (·.centeredPersonId)

/-- `p.generation === 0 && p.status === 'complete'`. -/
def isGen0Complete (p : Person) : Bool :=
  p.generation = some 0 && p.status = some "complete"

/-- `p.generation === 0`. -/
def isGen0 (p : Person) : Bool :=
  p.generation = some 0

/-- The fallback chain of `determineCenteredPerson` after the meta
check: first generation-0 complete person, then any generation-0
person, then the first person, else the empty string. -/
def determineFallback (familyData : FamilyData) : String :=
  match familyData.people.find? isGen0Complete with
  | some gen0Person => gen0Person.id
  | none =>
    match familyData.people.find? isGen0 with
    | some anyGen0 => anyGen0.id
    | none =>
      match familyData.people.head? with
      | some p => p.id
      | none => ""

/-- `FamilyGraph.determineCenteredPerson`: meta focal id (JavaScript
truthiness: the empty string does not count), then the fallback
chain. -/
def determineCenteredPerson (familyData : FamilyData) : String :=
  match metaFocal familyData with
  | some c => if c ≠ "" then c else determineFallback familyData
  | none => determineFallback familyData

/-- The three relationship kinds of `GraphEdge['type']`. -/
inductive EdgeType where
  | parentChild
  | spouse
  | sibling
  deriving Repr, DecidableEq

/-- The string form of each edge kind, as used in edge keys. -/
def EdgeType.str : EdgeType → String
  | parentChild => "parent-child"
  | spouse => "spouse"
  | sibling => "sibling"

/-- A graph edge (`GraphEdge` in `src/types`). -/
structure GraphEdge where
  id : String
  sourceId : String
  targetId : String
  type : EdgeType
  strength : ℚ
  deriving Repr, DecidableEq

/-- Lexicographic comparison of character lists by code unit, the
order used by JavaScript's default `Array.sort` on strings. -/
def charListLe : List Char → List Char → Bool
  | [], _ => true
  | _ :: _, [] => false
  | a :: as, b :: bs =>
    if a.toNat < b.toNat then true
    else if b.toNat < a.toNat then false
    else charListLe as bs

/-- JavaScript string comparison `a <= b`. -/
def strLe (a b : String) : Bool :=
  charListLe a.data b.data

/-- `[sourceId, targetId].sort()` on a two-element array. -/
def sortPair (a b : String) : String × String :=
  if strLe a b then (a, b) else (b, a)

/-- `[sourceId, targetId].sort().join('-')`: the canonical key of an
unordered identifier pair. -/
def pairKey (a b : String) : String :=
  (sortPair a b).1 ++ "-" ++ (sortPair a b).2

/-- The canonical edge key `sort(idA, idB).join('-') + '-' + type`. -/
def edgeKey (a b : String) (t : EdgeType) : String :=
  pairKey a b ++ "-" ++ t.str

/-- State of `FamilyGraph.buildEdges`: the `edgeSet` of canonical keys
already inserted and the accumulated edge list. -/
structure EdgeState where
  edgeSet : List String := []
  edges : List GraphEdge := []
  deriving Repr, DecidableEq

/-- The `addEdge` closure inside `buildEdges`: skip if the canonical
key is already present, otherwise record the key and push the edge
with strength 1.0 / 0.8 / 0.5 for parent-child / spouse / other. -/
def addEdge (st : EdgeState) (sourceId targetId : String)
    (type : EdgeType) : EdgeState :=
  let key := edgeKey sourceId targetId type
  if key ∈ st.edgeSet then st
  else
    { edgeSet := key :: st.edgeSet
      edges := st.edges ++
        [{ id := key, sourceId := sourceId, targetId := targetId
           type := type
           strength :=
             if type = .parentChild then 1
             else if type = .spouse then 8/10 else 1/2 }] }

/-- `this.nodes.has(id)`: the node map holds one node per person. -/
def hasNode (familyData : FamilyData) (id : String) : Bool :=
  familyData.people.any (·.id = id)

/-- The per-person body of the `buildEdges` loop: child references
then spouse references, each added only when the referenced node
exists. -/
def personEdges (familyData : FamilyData) (st : EdgeState)
    (person : Person) : EdgeState :=
  let st1 := person.childIds.foldl
    (fun s childId =>
      if hasNode familyData childId then
        addEdge s person.id childId .parentChild
      else s) st
  person.spouseIds.foldl
    (fun s spouseId =>
      if hasNode familyData spouseId then
        addEdge s person.id spouseId .spouse
      else s) st1

/-- `buildEdges` before sibling inference. -/
def buildEdgesBase (familyData : FamilyData) : EdgeState :=
  familyData.people.foldl (personEdges familyData) {}

/-- Insert a child id into the parent's entry of the
`parentToChildren` map (a `Map<string, Set<string>>` in insertion
order). -/
def insertChild (m : List (String × List String))
    (parentId childId : String) : List (String × List String) :=
  match m with
  | [] => [(parentId, [childId])]
  | (p, kids) :: rest =>
    if p = parentId then
      (p, if childId ∈ kids then kids else kids ++ [childId]) :: rest
    else (p, kids) :: insertChild rest parentId childId

/-- The parent-identifier → set-of-child-identifiers map built by
`inferSiblings` from every person's `parentIds`. -/
def parentToChildren (familyData : FamilyData) :
    List (String × List String) :=
  familyData.people.foldl
    (fun m person =>
      person.parentIds.foldl
        (fun m parentId => insertChild m parentId person.id) m)
    []

/-- Look up the children set recorded for a parent id. -/
def lookupPTC (m : List (String × List String)) (p : String) :
    Option (List String) :=
  (m.find? (·.1 = p)).map (·.2)

/-- All ordered pairs `(l[i], l[j])` with `i < j`, in the order of the
nested loops of `inferSiblings`. -/
def allPairs {α : Type} : List α → List (α × α)
  | [] => []
  | x :: xs => xs.map (fun y => (x, y)) ++ allPairs xs

/-- State of the sibling-edge loop: the `siblingPairs` key set and the
sibling edges pushed so far. -/
structure SibState where
  siblingPairs : List String := []
  edges : List GraphEdge := []
  deriving Repr, DecidableEq

/-- One candidate sibling pair: skip if its canonical pair key was
seen, otherwise record the key and push a `sibling` edge of strength
0.6. -/
def sibStep (st : SibState) (pq : String × String) : SibState :=
  let key := pairKey pq.1 pq.2
  if key ∈ st.siblingPairs then st
  else
    { siblingPairs := key :: st.siblingPairs
      edges := st.edges ++
        [{ id := key ++ "-sibling", sourceId := pq.1, targetId := pq.2
           type := .sibling, strength := 6/10 }] }

/-- The sequence of candidate pairs examined by `inferSiblings`: for
each parent entry (map insertion order), all unordered pairs of its
children. -/
def siblingSteps (familyData : FamilyData) : List (String × String) :=
  ((parentToChildren familyData).map (fun e => allPairs e.2)).flatten

/-- The sibling edges produced by `inferSiblings`. -/
def siblingEdges (familyData : FamilyData) : List GraphEdge :=
  ((siblingSteps familyData).foldl sibStep {}).edges

/-- The full edge list of the built graph: `buildEdges` output
followed by the inferred sibling edges. -/
def graphEdges (familyData : FamilyData) : List GraphEdge :=
  (buildEdgesBase familyData).edges ++ siblingEdges familyData

/-- State of the generation BFS: per-node generations (association
list in person order), the visited set, and the queue. -/
structure GenState where
  gens : List (String × Int)
  visited : List String
  queue : List (String × Int)
  deriving Repr, DecidableEq

/-- Set the generation of a node id (no-op for unknown ids). -/
def setGen (gens : List (String × Int)) (id : String) (g : Int) :
    List (String × Int) :=
  gens.map (fun e => if e.1 = id then (e.1, g) else e)

/-- Neighbor selection for a parent-child edge at the dequeued node
`id`: an unvisited target of an `id`-sourced edge is a child at
`gen + 1`; an unvisited source of an `id`-targeted edge is a parent at
`gen - 1`. -/
def pcNeighbor (st : GenState) (id : String) (gen : Int)
    (edge : GraphEdge) : Option (String × Int) :=
  if edge.sourceId = id ∧ edge.targetId ∉ st.visited then
    some (edge.targetId, gen + 1)
  else if edge.targetId = id ∧ edge.sourceId ∉ st.visited then
    some (edge.sourceId, gen - 1)
  else none

/-- Neighbor selection for a spouse/sibling edge at the dequeued node
`id`: the unvisited other endpoint. -/
def ssNeighbor (st : GenState) (id : String) (edge : GraphEdge) :
    Option String :=
  if edge.sourceId = id ∧ edge.targetId ∉ st.visited then
    some edge.targetId
  else if edge.targetId = id ∧ edge.sourceId ∉ st.visited then
    some edge.sourceId
  else none

/-- One parent-child edge examined while processing the dequeued node
`id` at generation `gen`: the neighbor is marked visited, and assigned
and enqueued when its node exists. -/
def pcStep (id : String) (gen : Int) (st : GenState)
    (edge : GraphEdge) : GenState :=
  if edge.type ≠ .parentChild then st
  else
    match pcNeighbor st id gen edge with
    | none => st
    | some (nId, g) =>
      let visited' := st.visited ++ [nId]
      if st.gens.any (·.1 = nId) then
        { gens := setGen st.gens nId g
          visited := visited'
          queue := st.queue ++ [(nId, g)] }
      else { st with visited := visited' }

/-- One spouse/sibling edge examined while processing the dequeued
node `id` at generation `gen`: an unvisited neighbor inherits `gen`. -/
def ssStep (id : String) (gen : Int) (st : GenState)
    (edge : GraphEdge) : GenState :=
  if edge.type = .spouse ∨ edge.type = .sibling then
    match ssNeighbor st id edge with
    | none => st
    | some nId =>
      let visited' := st.visited ++ [nId]
      if st.gens.any (·.1 = nId) then
        { gens := setGen st.gens nId gen
          visited := visited'
          queue := st.queue ++ [(nId, gen)] }
      else { st with visited := visited' }
  else st

/-- The body of the BFS while-loop for one dequeued node: the
parent-child pass over all edges, then the spouse/sibling pass. -/
def processNode (edges : List GraphEdge) (id : String) (gen : Int)
    (st : GenState) : GenState :=
  edges.foldl (ssStep id gen) (edges.foldl (pcStep id gen) st)

/-- The BFS while-loop, fuelled; each enqueued id is distinct, so
`people.length + 1` fuel drains the queue. -/
def bfsLoop (edges : List GraphEdge) : Nat → GenState → GenState
  | 0, st => st
  | fuel + 1, st =>
    match st.queue with
    | [] => st
    | (id, gen) :: rest =>
      let st' := { st with queue := rest }
      if st'.gens.any (·.1 = id) then
        bfsLoop edges fuel (processNode edges id gen st')
      else
        bfsLoop edges fuel st'

/-- Initial generations: every node starts at the placeholder 0
(assigned in `buildNodes`). -/
def initialGens (familyData : FamilyData) : List (String × Int) :=
  familyData.people.map (fun p => (p.id, 0))

/-- `FamilyGraph.calculateGenerations`: return unchanged when the
centered id resolves to no node; otherwise BFS from the centered node
at generation 0. -/
def calculateGenerations (familyData : FamilyData)
    (edges : List GraphEdge) (centeredId : String) : GenState :=
  let gens0 := initialGens familyData
  if gens0.any (·.1 = centeredId) then
    bfsLoop edges (familyData.people.length + 1)
      { gens := setGen gens0 centeredId 0
        visited := [centeredId]
        queue := [(centeredId, 0)] }
  else
    { gens := gens0, visited := [], queue := [] }

/-- The parts of the constructed `FamilyGraph` that the claims are
about. -/
structure BuiltGraph where
  centeredId : String
  edges : List GraphEdge
  gens : List (String × Int)
  visited : List String
  deriving Repr, DecidableEq

/-- The `FamilyGraph` constructor: determine the centered person,
build nodes and edges, then assign generations. -/
def familyGraph (familyData : FamilyData) : BuiltGraph :=
  let centeredId := determineCenteredPerson familyData
  let edges := graphEdges familyData
  let st := calculateGenerations familyData edges centeredId
  { centeredId := centeredId, edges := edges
    gens := st.gens, visited := st.visited }

/-- Look up a node's generation in a generation association list. -/
def lookupGen (gens : List (String × Int)) (id : String) : Option Int :=
  (gens.find? (·.1 = id)).map (·.2)

/-- The generation of a node in the built graph. -/
def generationOf (g : BuiltGraph) (id : String) : Option Int :=
  lookupGen g.gens id

/-- The list of node identifiers (one node per person). -/
def idsOf (familyData : FamilyData) : List String :=
  familyData.people.map (·.id)

/-- Whether an edge joins the unordered pair `{a, b}` with kind `k`. -/
def edgeMatches (a b : String) (k : EdgeType) (e : GraphEdge) : Bool :=
  e.type = k &&
    ((e.sourceId = a && e.targetId = b) ||
     (e.sourceId = b && e.targetId = a))

/-- The canonical key of an edge recomputed from its fields. -/
def edgeKeyOf (e : GraphEdge) : String :=
  edgeKey e.sourceId e.targetId e.type

/-- Canonical sorted-pair keys are collision-free on the dataset's
node identifiers (this holds in particular when no identifier
contains the `'-'` separator). -/
def pairKeyInjective (familyData : FamilyData) : Prop :=
  ∀ a ∈ idsOf familyData, ∀ b ∈ idsOf familyData,
    ∀ c ∈ idsOf familyData, ∀ d ∈ idsOf familyData,
      pairKey a b = pairKey c d → sortPair a b = sortPair c d

instance (familyData : FamilyData) :
    Decidable (pairKeyInjective familyData) := by
  unfold pairKeyInjective
  infer_instance

/-- A 3D vector over exact rationals (JavaScript numbers are modelled
by `ℚ`). -/
structure Vec3 where
  x : ℚ := 0
  y : ℚ := 0
  z : ℚ := 0
  deriving Repr, DecidableEq

instance : Inhabited Vec3 := ⟨{}⟩

/-- Componentwise addition. -/
def Vec3.add (a b : Vec3) : Vec3 :=
  ⟨a.x + b.x, a.y + b.y, a.z + b.z⟩

/-- Scaling by a rational. -/
def Vec3.scale (c : ℚ) (v : Vec3) : Vec3 :=
  ⟨c * v.x, c * v.y, c * v.z⟩

instance : Zero Vec3 := ⟨⟨0, 0, 0⟩⟩

instance : Add Vec3 := ⟨Vec3.add⟩

instance : AddCommMonoid Vec3 where
  add_assoc a b c := by
    cases a; cases b; cases c
    show Vec3.add (Vec3.add _ _) _ = Vec3.add _ (Vec3.add _ _)
    simp only [Vec3.add, Vec3.mk.injEq]
    refine ⟨by ring, by ring, by ring⟩
  zero_add a := by
    cases a
    show Vec3.add ⟨0, 0, 0⟩ _ = _
    simp [Vec3.add]
  add_zero a := by
    cases a
    show Vec3.add _ ⟨0, 0, 0⟩ = _
    simp [Vec3.add]
  add_comm a b := by
    cases a; cases b
    show Vec3.add _ _ = Vec3.add _ _
    simp only [Vec3.add, Vec3.mk.injEq]
    refine ⟨by ring, by ring, by ring⟩
  nsmul := nsmulRec
  nsmul_zero := fun _ => rfl
  nsmul_succ := fun _ _ => rfl

/-- Scalar data of an octree node (`OctreeNode` fields other than
`children` in `src/core/barnesHut.ts`). -/
structure OctreeData where
  centerX : ℚ
  centerY : ℚ
  centerZ : ℚ
  halfSize : ℚ
  mass : ℚ
  comX : ℚ
  comY : ℚ
  comZ : ℚ
  bodyIndex : Int
  deriving Repr, DecidableEq

/-- An octree node; `OctreeNode.empty` models a `null` child slot, and
the `Bool` field records whether the `children` array has been
allocated (in the source, `children === null` versus an array of eight
nullable slots). -/
inductive OctreeNode : Type where
  | empty : OctreeNode
  | mk : OctreeData → Bool → (Fin 8 → OctreeNode) → OctreeNode

instance : Inhabited OctreeNode := ⟨.empty⟩

/-- A freshly allocated `children` array of eight `null` slots. -/
def noChildren : Fin 8 → OctreeNode := fun _ => .empty

/-- The scalar data of a node (`null` reads as an inert default). -/
def OctreeNode.data : OctreeNode → OctreeData
  | .empty => { centerX := 0, centerY := 0, centerZ := 0, halfSize := 0
                mass := 0, comX := 0, comY := 0, comZ := 0
                bodyIndex := -1 }
  | .mk d _ _ => d

/-- Whether the node's `children` array is allocated (`children !==
null` in the source). -/
def OctreeNode.hasChildren : OctreeNode → Bool
  | .empty => false
  | .mk _ b _ => b

/-- `createNode` from the source: zero mass, no children, body −1. -/
def createNode (centerX centerY centerZ halfSize : ℚ) : OctreeNode :=
  .mk { centerX := centerX, centerY := centerY, centerZ := centerZ
        halfSize := halfSize, mass := 0, comX := 0, comY := 0
        comZ := 0, bodyIndex := -1 } false noChildren

/-- `getOctant`: bit-pack the three `>=`-center comparisons. -/
def getOctant (d : OctreeData) (pos : Vec3) : Fin 8 :=
  ⟨(if pos.x ≥ d.centerX then 1 else 0) +
   (if pos.y ≥ d.centerY then 2 else 0) +
   (if pos.z ≥ d.centerZ then 4 else 0), by split_ifs <;> omega⟩

/-- `getChildCenter`: offset by a half of the half-size along each
axis according to the octant bits. -/
def getChildCenter (d : OctreeData) (octant : Fin 8) : Vec3 :=
  let offset := d.halfSize / 2
  { x := d.centerX + (if octant.val % 2 = 1 then offset else -offset)
    y := d.centerY + (if octant.val / 2 % 2 = 1 then offset else -offset)
    z := d.centerZ + (if octant.val / 4 % 2 = 1 then offset else -offset) }

/-- The running mass/center-of-mass update of `insert` (the source's
`node.mass++` and incremental `comX/comY/comZ` averages, with the JS
`node.mass` read before the increment). -/
def updData (nd : OctreeData) (pos : Vec3) : OctreeData :=
  { nd with
    mass := nd.mass + 1
    comX := (nd.comX * nd.mass + pos.x) / (nd.mass + 1)
    comY := (nd.comY * nd.mass + pos.y) / (nd.mass + 1)
    comZ := (nd.comZ * nd.mass + pos.z) / (nd.mass + 1) }

/-- Fetch the child at slot `o`, lazily creating it at the octant
sub-cube center when the slot is `null` (the source's
`if (!node.children[octant]) node.children[octant] = createNode(...)`
step). -/
def childFor (f : Fin 8 → OctreeNode) (nd : OctreeData) (o : Fin 8) :
    OctreeNode :=
  match f o with
  | .empty =>
    createNode (getChildCenter nd o).x (getChildCenter nd o).y
      (getChildCenter nd o).z (nd.halfSize / 2)
  | c => c

/-- `BarnesHutTree.insert`, fuelled (the source recursion does not
terminate on coincident positions, so the model returns `none` when
fuel runs out).  The running mass/center-of-mass update happens first;
then: store into an empty leaf, or subdivide a one-body leaf
re-inserting the stored body, or descend into the octant child
(created lazily). -/
def insertBody : Nat → OctreeNode → Nat → Vec3 → List Vec3 →
    Option OctreeNode
  | 0, _, _, _, _ => none
  | fuel + 1, node, bodyIndex, pos, allPositions =>
    match node with
    | .empty => none
    | .mk nd hasC f =>
      let d := updData nd pos
      if hasC then
        let octant := getOctant nd pos
        match insertBody fuel (childFor f nd octant) bodyIndex pos
            allPositions with
        | none => none
        | some child' =>
          some (.mk d true (Function.update f octant child'))
      else if nd.bodyIndex = -1 then
        some (.mk { d with bodyIndex := (bodyIndex : Int) } false f)
      else
        let existingIndex := nd.bodyIndex.toNat
        let existingPos := allPositions.getD existingIndex default
        let existingOctant := getOctant nd existingPos
        let ec := getChildCenter nd existingOctant
        match insertBody fuel
            (createNode ec.x ec.y ec.z (nd.halfSize / 2))
            existingIndex existingPos allPositions with
        | none => none
        | some reChild =>
          let f1 := Function.update noChildren existingOctant reChild
          let octant := getOctant nd pos
          match insertBody fuel (childFor f1 nd octant) bodyIndex pos
              allPositions with
          | none => none
          | some child' =>
            some (.mk { d with bodyIndex := -1 } true
              (Function.update f1 octant child'))

/-- The padded bounding cube of `build`: per-axis min/max over all
positions (seeded with the first position), padding 10 on each side,
cube side the largest padded extent, centered at the box center. -/
def rootCube (p0 : Vec3) (positions : List Vec3) : OctreeNode :=
  let minX := positions.foldl (fun m p => min m p.x) p0.x
  let maxX := positions.foldl (fun m p => max m p.x) p0.x
  let minY := positions.foldl (fun m p => min m p.y) p0.y
  let maxY := positions.foldl (fun m p => max m p.y) p0.y
  let minZ := positions.foldl (fun m p => min m p.z) p0.z
  let maxZ := positions.foldl (fun m p => max m p.z) p0.z
  let padding : ℚ := 10
  let sizeX := maxX - minX + padding * 2
  let sizeY := maxY - minY + padding * 2
  let sizeZ := maxZ - minZ + padding * 2
  let halfSize := max (max sizeX sizeY) sizeZ / 2
  createNode ((minX + maxX) / 2) ((minY + maxY) / 2)
    ((minZ + maxZ) / 2) halfSize

/-- The insertion loop of `build`: insert body `i` at
`positions[i]` for each index in order, threading failure. -/
def insertAll (fuel : Nat) (positions : List Vec3)
    (root : OctreeNode) : Option OctreeNode :=
  (List.range positions.length).foldl
    (fun acc i => acc.bind (fun node =>
      insertBody fuel node i (positions.getD i default) positions))
    (some root)

/-- `BarnesHutTree.build`: empty input yields a `null` root; otherwise
compute the padded bounding cube and insert every position in order.
The outer `Option` is fuel success, the inner the root's nullability. -/
def buildO (fuel : Nat) (positions : List Vec3) :
    Option (Option OctreeNode) :=
  match positions with
  | [] => some none
  | p0 :: _ =>
    match insertAll fuel positions (rootCube p0 positions) with
    | none => none
    | some r => some (some r)

/-- The multiset of body indices stored at the leaves of a subtree. -/
def bodies : OctreeNode → Multiset ℕ
  | .empty => 0
  | .mk d hasC f =>
    if hasC then ∑ i : Fin 8, bodies (f i)
    else if 0 ≤ d.bodyIndex then {d.bodyIndex.toNat} else 0

/-- All allocated nodes of a subtree (the node itself and, when the
children array exists, the subtrees of its non-null slots). -/
def subnodes : OctreeNode → List OctreeNode
  | .empty => []
  | .mk d hasC f =>
    .mk d hasC f ::
      (if hasC then
        ((List.finRange 8).map (fun i => subnodes (f i))).flatten
      else [])

/-- Membership of a point in a node's cube region. -/
def inCube (d : OctreeData) (p : Vec3) : Prop :=
  |p.x - d.centerX| ≤ d.halfSize ∧
  |p.y - d.centerY| ≤ d.halfSize ∧
  |p.z - d.centerZ| ≤ d.halfSize

instance (d : OctreeData) (p : Vec3) : Decidable (inCube d p) := by
  unfold inCube
  infer_instance

/-- The mass/center-of-mass bookkeeping a node's scalar data must
satisfy relative to the multiset `bs` of bodies below it: mass counts
the bodies, mass-weighted center of mass sums their positions, every
body lies in the node's cube, and the stored leaf index is never below
−1. -/
def dataInv (ps : List Vec3) (d : OctreeData) (bs : Multiset ℕ) :
    Prop :=
  d.mass = (bs.card : ℚ) ∧
  d.mass * d.comX = (bs.map (fun i => (ps.getD i default).x)).sum ∧
  d.mass * d.comY = (bs.map (fun i => (ps.getD i default).y)).sum ∧
  d.mass * d.comZ = (bs.map (fun i => (ps.getD i default).z)).sum ∧
  (∀ i ∈ bs, inCube d (ps.getD i default)) ∧
  (d.bodyIndex = -1 ∨ 0 ≤ d.bodyIndex)

/-- The local invariant of one octree node. -/
def localInv (ps : List Vec3) (n : OctreeNode) : Prop :=
  dataInv ps n.data (bodies n)

/-- A child slot is `null` or sits exactly in its parent's octant
sub-cube. -/
def childGeom (d : OctreeData) (j : Fin 8) (c : OctreeNode) : Prop :=
  c = .empty ∨
  (c.data.centerX = (getChildCenter d j).x ∧
   c.data.centerY = (getChildCenter d j).y ∧
   c.data.centerZ = (getChildCenter d j).z ∧
   c.data.halfSize = d.halfSize / 2)

/-- Geometric wellformedness of a node's children array. -/
def nodeGeom : OctreeNode → Prop
  | .empty => True
  | .mk d hasC f => hasC = true → ∀ j, childGeom d j (f j)

/-- The full octree invariant: every allocated node satisfies the
local mass/center-of-mass invariant and the child geometry. -/
def treeInv (ps : List Vec3) (n : OctreeNode) : Prop :=
  ∀ m ∈ subnodes n, localInv ps m ∧ nodeGeom m

/-- The point-mass contribution of a region toward the force on a
query position: magnitude `repulsion × mass / distSq` (softened),
directed away from the region's center of mass; `sq` models the
floating-point `Math.sqrt`. -/
def pointForce (sq : ℚ → ℚ) (repulsion : ℚ) (pos : Vec3)
    (n : OctreeNode) : Vec3 :=
  let d := n.data
  let dx := d.comX - pos.x
  let dy := d.comY - pos.y
  let dz := d.comZ - pos.z
  let distSq := dx * dx + dy * dy + dz * dz + 1/10
  let dist := sq distSq
  let fmag := repulsion * d.mass / distSq
  ⟨-(dx / dist) * fmag, -(dy / dist) * fmag, -(dz / dist) * fmag⟩

/-- `calculateForceRecursive`: skip empty regions and the leaf holding
the query body; treat a childless region, or one whose
`2·halfSize / dist` ratio is below θ, as a single point mass;
otherwise recurse into all non-null children and sum. -/
def calcForceRec (sq : ℚ → ℚ) (theta repulsion : ℚ) (bodyIndex : Nat)
    (pos : Vec3) : OctreeNode → Vec3
  | .empty => 0
  | .mk d hasC f =>
    if d.mass = 0 then 0
    else if d.bodyIndex = (bodyIndex : Int) then 0
    else
      let dx := d.comX - pos.x
      let dy := d.comY - pos.y
      let dz := d.comZ - pos.z
      let distSq := dx * dx + dy * dy + dz * dz + 1/10
      let dist := sq distSq
      let ratio := d.halfSize * 2 / dist
      if hasC = false ∨ ratio < theta then
        pointForce sq repulsion pos (.mk d hasC f)
      else
        ∑ i : Fin 8, calcForceRec sq theta repulsion bodyIndex pos (f i)

/-- The regions that `calcForceRec` treats as single point masses. -/
def approxNodes (sq : ℚ → ℚ) (theta : ℚ) (bodyIndex : Nat)
    (pos : Vec3) : OctreeNode → List OctreeNode
  | .empty => []
  | .mk d hasC f =>
    if d.mass = 0 then []
    else if d.bodyIndex = (bodyIndex : Int) then []
    else
      let dx := d.comX - pos.x
      let dy := d.comY - pos.y
      let dz := d.comZ - pos.z
      let distSq := dx * dx + dy * dy + dz * dz + 1/10
      let dist := sq distSq
      let ratio := d.halfSize * 2 / dist
      if hasC = false ∨ ratio < theta then [.mk d hasC f]
      else
        ((List.finRange 8).map
          (fun i => approxNodes sq theta bodyIndex pos (f i))).flatten

/-- `BarnesHutTree.calculateForce`: zero when the root is `null`. -/
def calculateForce (sq : ℚ → ℚ) (theta repulsion : ℚ)
    (root : Option OctreeNode) (bodyIndex : Nat) (pos : Vec3) : Vec3 :=
  match root with
  | none => 0
  | some r => calcForceRec sq theta repulsion bodyIndex pos r

/-!
Concrete datasets used by individual claims.
-/

/-- Chain dataset: `P` is a parent of focal `F`, `G` a parent of `P`. -/
def c1ChainUp : FamilyData :=
  { people := [{ id := "F" }, { id := "P", childIds := ["F"] },
               { id := "G", childIds := ["P"] }]
    meta := some { centeredPersonId := some "F" } }

/-- Chain dataset: `C` is a child of focal `F`, `GC` a child of `C`. -/
def c1ChainDown : FamilyData :=
  { people := [{ id := "F", childIds := ["C"] },
               { id := "C", childIds := ["GC"] }, { id := "GC" }]
    meta := some { centeredPersonId := some "F" } }

/-- Pathological dataset where `S` is both a child and a spouse of the
focal person `F`. -/
def c1CexData : FamilyData :=
  { people := [{ id := "F", childIds := ["S"], spouseIds := ["S"] },
               { id := "S" }]
    meta := some { centeredPersonId := some "F" } }

/-- Dataset whose identifiers make two distinct unordered pairs share
the canonical sorted-join key `"a-b-c"`. -/
def c2CexData : FamilyData :=
  { people := [{ id := "a-b", parentIds := ["p1"] },
               { id := "c", parentIds := ["p1"] },
               { id := "a", parentIds := ["p2"] },
               { id := "b-c", parentIds := ["p2"] },
               { id := "p1" }, { id := "p2" }] }

/-- Two siblings `X`, `Y` sharing the single parent `P`. -/
def c2SibData : FamilyData :=
  { people := [{ id := "X", parentIds := ["P"] },
               { id := "Y", parentIds := ["P"] }, { id := "P" }]
    meta := some { centeredPersonId := some "X" } }

/-- A parent with two children declared as `childIds`, each child
independently declaring the parent in `parentIds`. -/
def c3Data : FamilyData :=
  { people := [{ id := "P", childIds := ["c1", "c2"] },
               { id := "c1", parentIds := ["P"] },
               { id := "c2", parentIds := ["P"] }] }

/-- A parent-child relationship declared only through the child's
`parentIds` list. -/
def c10Data : FamilyData :=
  { people := [{ id := "B" }, { id := "C", parentIds := ["B"] }]
    meta := some { centeredPersonId := some "C" } }

/-- A dataset whose meta focal identifier resolves to no node. -/
def c8MissingFocalData : FamilyData :=
  { people := [{ id := "A", spouseIds := ["A"] }]
    meta := some { centeredPersonId := some "Z" } }

/-- A single-body position list for the octree witnesses. -/
def c6ps : List Vec3 := [⟨1, 2, 3⟩]

/-- The scalar data of a fresh node with center `(1, 2, 3)` and
half-size `10`. -/
def c6Data : OctreeData :=
  { centerX := 1, centerY := 2, centerZ := 3, halfSize := 10
    mass := 0, comX := 0, comY := 0, comZ := 0, bodyIndex := -1 }

/-- The result of one insertion into a fresh node. -/
def c6Node : OctreeNode :=
  (insertBody 1 (createNode 1 2 3 10) 0 ⟨1, 2, 3⟩ c6ps).getD .empty

/-- The root produced by building the octree over `c6ps`. -/
def c6Tree : OctreeNode :=
  ((buildO 1 c6ps).getD none).getD .empty

/-- A concrete square-root stand-in for the force witnesses (the
claims hold for every `sq` function). -/
def c7Sq (q : ℚ) : ℚ := q

/-- A concrete query position for the force witnesses. -/
def c7Pos : Vec3 := ⟨0, 0, 0⟩

/-- A one-body leaf region holding body `0`. -/
def c7Data : OctreeData :=
  { centerX := 1, centerY := 2, centerZ := 3, halfSize := 10
    mass := 1, comX := 1, comY := 2, comZ := 3, bodyIndex := 0 }

/-- The leaf node over `c7Data`. -/
def c7Node : OctreeNode := .mk c7Data false noChildren

/-- A positioned graph node as consumed by `ForceDirectedLayout`
(`GraphNode`'s layout-relevant fields). -/
structure LayoutNode where
  id : String
  generation : Int
  position : Vec3
  velocity : Vec3
  deriving Repr, DecidableEq

instance : Inhabited LayoutNode :=
  ⟨{ id := "", generation := 0, position := ⟨0, 0, 0⟩
     velocity := ⟨0, 0, 0⟩ }⟩

/-- The numeric layout parameters (`EngineConfig['layout']`). -/
structure LayoutConfig where
  iterations : Nat
  generationSpacing : ℚ
  repulsionForce : ℚ
  attractionForce : ℚ
  centerForce : ℚ
  deriving Repr, DecidableEq

/-- The transcendental and random primitives of the source
(`Math.cos`, `Math.sin`, `Math.sqrt`, `Math.random` as a stream
indexed by call count, and π), abstracted as parameters. -/
structure MathOps where
  cosQ : ℚ → ℚ
  sinQ : ℚ → ℚ
  sqrtQ : ℚ → ℚ
  rand : Nat → ℚ
  piQ : ℚ

/-- Replace the element at index `k` (out-of-range writes are
no-ops), modelling in-place mutation of `nodes[k]`. -/
def updAt {α : Type} : List α → Nat → (α → α) → List α
  | [], _, _ => []
  | x :: t, 0, g => g x :: t
  | x :: t, k + 1, g => x :: updAt t k g

/-- Insert index `k` into the group of generation `g`, appending a
new group at the end on first occurrence (JS `Map` insertion
order). -/
def insertGroup (g : Int) (k : Nat) :
    List (Int × List Nat) → List (Int × List Nat)
  | [] => [(g, [k])]
  | (g0, l) :: t =>
    if g0 = g then (g0, l ++ [k]) :: t
    else (g0, l) :: insertGroup g k t

/-- Group node indices by generation, in first-occurrence order. -/
def genGroupsIdx (nodes : List LayoutNode) : List (Int × List Nat) :=
  (List.range nodes.length).foldl
    (fun gs k => insertGroup (nodes.getD k default).generation k gs) []

/-- Ring placement of one generation group: node `i` of `len` gets
angle `(i/len)·2π`, radius `|gen|·spacing` jittered by
`(rand − 1/2)·10`, and a jittered layer height `y`; each node
consumes two `Math.random` calls (`c` is the call counter). -/
def ringGroupAux (cfg : LayoutConfig) (ops : MathOps) (gen : Int)
    (len : Nat) : List Nat → Nat → Nat → List (Nat × Vec3)
  | [], _, _ => []
  | k :: t, i, c =>
    let radius := (gen.natAbs : ℚ) * cfg.generationSpacing
    let y := (gen : ℚ) * cfg.generationSpacing * (1 / 2)
    let angle := ((i : ℚ) / (len : ℚ)) * ops.piQ * 2
    let jitter := (ops.rand c - 1 / 2) * 10
    (k, ⟨ops.cosQ angle * (radius + jitter),
         y + (ops.rand (c + 1) - 1 / 2) * 20,
         ops.sinQ angle * (radius + jitter)⟩) ::
      ringGroupAux cfg ops gen len t (i + 1) (c + 2)

/-- Ring placement of all generation groups in order, threading the
`Math.random` call counter. -/
def ringAssign (cfg : LayoutConfig) (ops : MathOps) :
    List (Int × List Nat) → Nat → List (Nat × Vec3)
  | [], _ => []
  | (g, l) :: t, c =>
    ringGroupAux cfg ops g l.length l 0 c ++
      ringAssign cfg ops t (c + 2 * l.length)

/-- Assign every node its ring position and a zero velocity. -/
def placeRings (cfg : LayoutConfig) (ops : MathOps)
    (nodes : List LayoutNode) : List LayoutNode :=
  let asg := ringAssign cfg ops (genGroupsIdx nodes) 0
  (List.range nodes.length).map (fun k =>
    let n := nodes.getD k default
    match (asg.find? (fun pr => pr.1 = k)).map (fun pr => pr.2) with
    | some p => { n with position := p, velocity := ⟨0, 0, 0⟩ }
    | none => n)

/-- `initializePositions`: ring placement per generation, then the
centered node (the first index with the given id, when present)
moved to the origin. -/
def initializePositions (cfg : LayoutConfig) (ops : MathOps)
    (nodes : List LayoutNode) (centeredId : String) :
    List LayoutNode :=
  let placed := placeRings cfg ops nodes
  match placed.findIdx? (fun n => n.id = centeredId) with
  | some k => updAt placed k (fun n => { n with position := ⟨0, 0, 0⟩ })
  | none => placed

/-- The ordered index pairs `(i, j)`, `i < j`, of the double loop in
`applyRepulsionDirect`. -/
def pairsUpTo (n : Nat) : List (Nat × Nat) :=
  ((List.range n).map (fun i =>
    ((List.range n).drop (i + 1)).map (fun j => (i, j)))).flatten

/-- One inner-loop step of the direct `O(n²)` repulsion: softened
inverse-square force pushing the pair apart, accumulated
oppositely on both velocities. -/
def repulseStep (cfg : LayoutConfig) (ops : MathOps)
    (nodes : List LayoutNode) (pr : Nat × Nat) : List LayoutNode :=
  let a := nodes.getD pr.1 default
  let b := nodes.getD pr.2 default
  let dx := b.position.x - a.position.x
  let dy := b.position.y - a.position.y
  let dz := b.position.z - a.position.z
  let distSq := dx * dx + dy * dy + dz * dz + 1 / 10
  let dist := ops.sqrtQ distSq
  let force := cfg.repulsionForce / distSq
  let fx := dx / dist * force
  let fy := dy / dist * force
  let fz := dz / dist * force
  updAt (updAt nodes pr.1 (fun n => { n with velocity :=
      ⟨n.velocity.x - fx, n.velocity.y - fy, n.velocity.z - fz⟩ }))
    pr.2 (fun n => { n with velocity :=
      ⟨n.velocity.x + fx, n.velocity.y + fy, n.velocity.z + fz⟩ })

/-- `applyRepulsionDirect`: all `i < j` pairs in order. -/
def applyRepulsionDirect (cfg : LayoutConfig) (ops : MathOps)
    (nodes : List LayoutNode) : List LayoutNode :=
  (pairsUpTo nodes.length).foldl (repulseStep cfg ops) nodes

/-- `applyRepulsionBarnesHut`: build the octree over the current
positions (fuelled) and add the approximated force to each node's
velocity; θ is 0.7 from the tree's construction. -/
def applyRepulsionBH (fuel : Nat) (cfg : LayoutConfig)
    (ops : MathOps) (nodes : List LayoutNode) :
    Option (List LayoutNode) :=
  match buildO fuel (nodes.map (fun n => n.position)) with
  | none => none
  | some root =>
    some ((List.range nodes.length).map (fun i =>
      let n := nodes.getD i default
      let f := calculateForce ops.sqrtQ (7 / 10) cfg.repulsionForce
        root i n.position
      { n with velocity := (n.velocity).add f }))

/-- The repulsion dispatch of `simulationStep`. -/
def applyRepulsion (fuel : Nat) (cfg : LayoutConfig) (ops : MathOps)
    (useBH : Bool) (nodes : List LayoutNode) :
    Option (List LayoutNode) :=
  if useBH then applyRepulsionBH fuel cfg ops nodes
  else some (applyRepulsionDirect cfg ops nodes)

/-- The index the JS `Map` of `applyAttraction` resolves an id to:
the last occurrence wins (later map entries overwrite earlier
ones). -/
def lastIdxOf (nodes : List LayoutNode) (id : String) : Option Nat :=
  (List.range nodes.length).foldl
    (fun acc k => if (nodes.getD k default).id = id then some k
      else acc) none

/-- One edge of `applyAttraction`: spring force toward the
type-dependent ideal distance, scaled by edge strength, applied
oppositely to source and target; edges with a missing endpoint are
skipped. -/
def attractStep (cfg : LayoutConfig) (ops : MathOps)
    (nodes : List LayoutNode) (e : GraphEdge) : List LayoutNode :=
  match lastIdxOf nodes e.sourceId, lastIdxOf nodes e.targetId with
  | some si, some ti =>
    let source := nodes.getD si default
    let target := nodes.getD ti default
    let dx := target.position.x - source.position.x
    let dy := target.position.y - source.position.y
    let dz := target.position.z - source.position.z
    let dist := ops.sqrtQ (dx * dx + dy * dy + dz * dz) + 1 / 10
    let idealDist :=
      if e.type = EdgeType.parentChild then cfg.generationSpacing
      else if e.type = EdgeType.spouse then
        cfg.generationSpacing * (3 / 10)
      else cfg.generationSpacing * (1 / 2)
    let force := (dist - idealDist) * cfg.attractionForce * e.strength
    let fx := dx / dist * force
    let fy := dy / dist * force
    let fz := dz / dist * force
    updAt (updAt nodes si (fun n => { n with velocity :=
        ⟨n.velocity.x + fx, n.velocity.y + fy, n.velocity.z + fz⟩ }))
      ti (fun n => { n with velocity :=
        ⟨n.velocity.x - fx, n.velocity.y - fy, n.velocity.z - fz⟩ })
  | _, _ => nodes

/-- `applyAttraction` over all edges in order. -/
def applyAttraction (cfg : LayoutConfig) (ops : MathOps)
    (edges : List GraphEdge) (nodes : List LayoutNode) :
    List LayoutNode :=
  edges.foldl (attractStep cfg ops) nodes

/-- `applyCenterForce`: pull x/z toward the origin. -/
def applyCenterForce (cfg : LayoutConfig)
    (nodes : List LayoutNode) : List LayoutNode :=
  nodes.map (fun n => { n with velocity :=
    ⟨n.velocity.x - n.position.x * cfg.centerForce, n.velocity.y,
     n.velocity.z - n.position.z * cfg.centerForce⟩ })

/-- `applyGenerationForce`: pull y toward the generation layer at
`generation · spacing · 0.8` with coefficient `0.1`. -/
def applyGenerationForce (cfg : LayoutConfig)
    (nodes : List LayoutNode) : List LayoutNode :=
  nodes.map (fun n =>
    let targetY := (n.generation : ℚ) * cfg.generationSpacing *
      (8 / 10)
    { n with velocity :=
      ⟨n.velocity.x,
       n.velocity.y + (targetY - n.position.y) * (1 / 10),
       n.velocity.z⟩ })

/-- `simulationStep`: reset velocities, repulsion (Barnes-Hut or
direct), attraction, center and generation forces, then integrate
positions under the cooling temperature `1 − progress·0.8`. -/
def simulationStep (fuel : Nat) (cfg : LayoutConfig) (ops : MathOps)
    (useBH : Bool) (edges : List GraphEdge)
    (nodes : List LayoutNode) (progress : ℚ) :
    Option (List LayoutNode) :=
  match applyRepulsion fuel cfg ops useBH
      (nodes.map (fun n =>
        { n with velocity := (⟨0, 0, 0⟩ : Vec3) })) with
  | none => none
  | some n1 =>
    let n4 := applyGenerationForce cfg
      (applyCenterForce cfg (applyAttraction cfg ops edges n1))
    let temperature := 1 - progress * (8 / 10)
    some (n4.map (fun n => { n with position :=
      ⟨n.position.x + n.velocity.x * temperature,
       n.position.y + n.velocity.y * temperature,
       n.position.z + n.velocity.z * temperature⟩ }))

/-- The iteration loop of `calculate`: `k` remaining steps, `i` the
current iteration index, progress `i / iterations`. -/
def simLoop (fuel : Nat) (cfg : LayoutConfig) (ops : MathOps)
    (useBH : Bool) (edges : List GraphEdge) :
    Nat → Nat → List LayoutNode → Option (List LayoutNode)
  | 0, _, nodes => some nodes
  | k + 1, i, nodes =>
    match simulationStep fuel cfg ops useBH edges nodes
        ((i : ℚ) / (cfg.iterations : ℚ)) with
    | none => none
    | some n2 => simLoop fuel cfg ops useBH edges k (i + 1) n2

/-- `centerLayout`: subtract the centroid of all positions from
every position. -/
def centerLayout (nodes : List LayoutNode) : List LayoutNode :=
  let cx := (nodes.map (fun n => n.position.x)).sum /
    (nodes.length : ℚ)
  let cy := (nodes.map (fun n => n.position.y)).sum /
    (nodes.length : ℚ)
  let cz := (nodes.map (fun n => n.position.z)).sum /
    (nodes.length : ℚ)
  nodes.map (fun n => { n with position :=
    ⟨n.position.x - cx, n.position.y - cy, n.position.z - cz⟩ })

/-- `ForceDirectedLayout.calculate`: Barnes-Hut above 100 nodes,
initialize, iterate, then center. -/
def calculate (fuel : Nat) (cfg : LayoutConfig) (ops : MathOps)
    (nodes : List LayoutNode) (edges : List GraphEdge)
    (centeredId : String) : Option (List LayoutNode) :=
  match simLoop fuel cfg ops (decide (100 < nodes.length)) edges
      cfg.iterations 0
      (initializePositions cfg ops nodes centeredId) with
  | none => none
  | some ns => some (centerLayout ns)

/-- A concrete layout configuration for the C9 witness. -/
def c9Cfg : LayoutConfig :=
  { iterations := 2, generationSpacing := 100, repulsionForce := 50
    attractionForce := 1 / 10, centerForce := 1 / 100 }

/-- Concrete math primitives for the C9 witness. -/
def c9Ops : MathOps :=
  { cosQ := fun _ => 1, sinQ := fun _ => 0, sqrtQ := fun q => q
    rand := fun _ => 1 / 2, piQ := 3 }

/-- A two-node input list for the C9 witness. -/
def c9Nodes : List LayoutNode :=
  [{ id := "A", generation := 0, position := ⟨0, 0, 0⟩
     velocity := ⟨0, 0, 0⟩ },
   { id := "B", generation := 1, position := ⟨0, 0, 0⟩
     velocity := ⟨0, 0, 0⟩ }]

/-- The layout the C9 witness computes. -/
def c9Result : List LayoutNode :=
  (calculate 1 c9Cfg c9Ops c9Nodes [] "A").getD []

/-!
Theorems.  Helper lemmas first, then one theorem per claim.
-/

theorem foldl_preserve {α σ : Type} {P : σ → Prop} {f : σ → α → σ}
    {l : List α} (h : ∀ s a, a ∈ l → P s → P (f s a)) :
    ∀ s, P s → P (l.foldl f s) := by
  induction l with
  | nil => intro s hs; exact hs
  | cons x xs ih =>
    intro s hs
    exact ih (fun s a ha => h s a (List.mem_cons_of_mem _ ha)) _
      (h s x (List.mem_cons_self _ _) hs)

theorem charListLe_total : ∀ as bs : List Char,
    charListLe as bs = true ∨ charListLe bs as = true := by
  intro as
  induction as with
  | nil => intro bs; left; rfl
  | cons a as ih =>
    intro bs
    cases bs with
    | nil => right; rfl
    | cons b bs =>
      by_cases h1 : a.toNat < b.toNat
      · left
        simp [charListLe, h1]
      · by_cases h2 : b.toNat < a.toNat
        · right
          simp [charListLe, h2]
        · rcases ih bs with h | h
          · left
            simp [charListLe, h1, h2, h]
          · right
            simp [charListLe, h1, h2, h]

theorem charListLe_antisymm : ∀ as bs : List Char,
    charListLe as bs = true → charListLe bs as = true → as = bs := by
  intro as
  induction as with
  | nil =>
    intro bs h1 h2
    cases bs with
    | nil => rfl
    | cons b bs => simp [charListLe] at h2
  | cons a as ih =>
    intro bs h1 h2
    cases bs with
    | nil => simp [charListLe] at h1
    | cons b bs =>
      by_cases hab : a.toNat < b.toNat
      · simp [charListLe, hab, Nat.lt_asymm hab] at h2
      · by_cases hba : b.toNat < a.toNat
        · simp [charListLe, hba, Nat.lt_asymm hba] at h1
        · have hchar : a = b := by
            have : a.toNat = b.toNat :=
              Nat.le_antisymm (Nat.not_lt.mp hba) (Nat.not_lt.mp hab)
            exact Char.eq_of_val_eq (UInt32.ext this)
          subst hchar
          simp only [charListLe, if_neg hab, if_neg hba] at h1 h2
          rw [ih bs h1 h2]

theorem strLe_total (a b : String) :
    strLe a b = true ∨ strLe b a = true :=
  charListLe_total a.data b.data

theorem strLe_antisymm {a b : String}
    (h1 : strLe a b = true) (h2 : strLe b a = true) : a = b := by
  cases a
  cases b
  exact congrArg String.mk (charListLe_antisymm _ _ h1 h2)

theorem sortPair_comm (a b : String) : sortPair a b = sortPair b a := by
  unfold sortPair
  by_cases h1 : strLe a b = true
  · by_cases h2 : strLe b a = true
    · have hab : a = b := strLe_antisymm h1 h2
      subst hab; simp
    · simp [h1, h2]
  · have h2 : strLe b a = true := (strLe_total a b).resolve_left h1
    simp [h1, h2]

theorem pairKey_comm (a b : String) : pairKey a b = pairKey b a := by
  unfold pairKey
  rw [sortPair_comm]

theorem sortPair_eq_cases {a b c d : String}
    (h : sortPair a b = sortPair c d) :
    (a = c ∧ b = d) ∨ (a = d ∧ b = c) := by
  unfold sortPair at h
  by_cases h1 : strLe a b = true <;> by_cases h2 : strLe c d = true <;>
    simp [h1, h2, Prod.ext_iff] at h <;> tauto

theorem edgeMatches_key {a b : String} {k : EdgeType} {e : GraphEdge}
    (h : edgeMatches a b k e = true) :
    e.type = k ∧ pairKey e.sourceId e.targetId = pairKey a b := by
  unfold edgeMatches at h
  simp only [Bool.and_eq_true, Bool.or_eq_true, decide_eq_true_eq] at h
  obtain ⟨ht, hor⟩ := h
  refine ⟨ht, ?_⟩
  rcases hor with ⟨h1, h2⟩ | ⟨h1, h2⟩
  · rw [h1, h2]
  · rw [h1, h2, pairKey_comm]

theorem edgeMatches_keyOf {a b : String} {k : EdgeType} {e : GraphEdge}
    (h : edgeMatches a b k e = true) : edgeKeyOf e = edgeKey a b k := by
  obtain ⟨ht, hk⟩ := edgeMatches_key h
  unfold edgeKeyOf edgeKey
  rw [ht, hk]

theorem filter_key_le_one {α β : Type} (l : List α) (p : α → Bool)
    (f : α → β) (key : β)
    (hpair : l.Pairwise (fun x y => f x ≠ f y))
    (hkey : ∀ x ∈ l, p x = true → f x = key) :
    (l.filter p).length ≤ 1 := by
  induction l with
  | nil => simp
  | cons x xs ih =>
    rw [List.filter_cons]
    rcases List.pairwise_cons.mp hpair with ⟨hx, hxs⟩
    by_cases hp : p x = true
    · have hnil : xs.filter p = [] := by
        rw [List.filter_eq_nil_iff]
        intro y hy hpy
        exact (hx y hy)
          (by rw [hkey x (List.mem_cons_self _ _) hp,
                  hkey y (List.mem_cons_of_mem _ hy) hpy])
      simp [hp, hnil]
    · simp only [hp, Bool.false_eq_true, if_false]
      exact ih hxs fun y hy => hkey y (List.mem_cons_of_mem _ hy)

theorem addEdge_pres_keys {st : EdgeState} (a b : String) (t : EdgeType)
    (h1 : ∀ e ∈ st.edges, edgeKeyOf e ∈ st.edgeSet)
    (h2 : st.edges.Pairwise (fun e1 e2 => edgeKeyOf e1 ≠ edgeKeyOf e2)) :
    (∀ e ∈ (addEdge st a b t).edges,
      edgeKeyOf e ∈ (addEdge st a b t).edgeSet) ∧
    (addEdge st a b t).edges.Pairwise
      (fun e1 e2 => edgeKeyOf e1 ≠ edgeKeyOf e2) := by
  unfold addEdge
  by_cases hk : edgeKey a b t ∈ st.edgeSet
  · simp only [if_pos hk]
    exact ⟨h1, h2⟩
  · simp only [if_neg hk]
    constructor
    · intro e he
      rcases List.mem_append.mp he with he | he
      · exact List.mem_cons_of_mem _ (h1 e he)
      · simp only [List.mem_singleton] at he
        subst he
        exact List.mem_cons_self _ _
    · rw [List.pairwise_append]
      refine ⟨h2, List.pairwise_singleton _ _, ?_⟩
      intro e1 he1 e2 he2
      simp only [List.mem_singleton] at he2
      subst he2
      intro hEq
      apply hk
      have h3 := h1 e1 he1
      rw [hEq] at h3
      exact h3

theorem addEdge_mem {st : EdgeState} {a b : String} {t : EdgeType}
    {e : GraphEdge} (he : e ∈ (addEdge st a b t).edges) :
    e ∈ st.edges ∨
      (e.sourceId = a ∧ e.targetId = b ∧ e.type = t ∧
        e.strength = (if t = .parentChild then 1
          else if t = .spouse then 8/10 else 1/2)) := by
  unfold addEdge at he
  by_cases hk : edgeKey a b t ∈ st.edgeSet
  · rw [if_pos hk] at he
    exact Or.inl he
  · rw [if_neg hk] at he
    rcases List.mem_append.mp he with he | he
    · exact Or.inl he
    · simp only [List.mem_singleton] at he
      subst he
      exact Or.inr ⟨rfl, rfl, rfl, rfl⟩

theorem condAddFold_mem (fd : FamilyData) (pid : String) (t : EdgeType)
    (ids : List String) :
    ∀ st e, e ∈ ((ids.foldl (fun s cid =>
        if hasNode fd cid then addEdge s pid cid t else s) st).edges) →
      e ∈ st.edges ∨ ∃ cid ∈ ids, e.sourceId = pid ∧ e.targetId = cid ∧
        e.type = t ∧ e.strength = (if t = .parentChild then 1
          else if t = .spouse then 8/10 else 1/2) := by
  induction ids with
  | nil => intro st e he; exact Or.inl he
  | cons x xs ih =>
    intro st e he
    rw [List.foldl_cons] at he
    rcases ih _ e he with h | ⟨cid, hcid, hrest⟩
    · by_cases hx : hasNode fd x = true
      · rw [if_pos hx] at h
        rcases addEdge_mem h with h | h
        · exact Or.inl h
        · exact Or.inr ⟨x, List.mem_cons_self _ _, h⟩
      · rw [if_neg hx] at h
        exact Or.inl h
    · exact Or.inr ⟨cid, List.mem_cons_of_mem _ hcid, hrest⟩

theorem buildEdgesBase_keys (fd : FamilyData) :
    (∀ e ∈ (buildEdgesBase fd).edges,
      edgeKeyOf e ∈ (buildEdgesBase fd).edgeSet) ∧
    (buildEdgesBase fd).edges.Pairwise
      (fun e1 e2 => edgeKeyOf e1 ≠ edgeKeyOf e2) := by
  have hcond : ∀ (pid : String) (t : EdgeType) (s : EdgeState)
      (cid : String),
      ((∀ e ∈ s.edges, edgeKeyOf e ∈ s.edgeSet) ∧
        s.edges.Pairwise (fun e1 e2 => edgeKeyOf e1 ≠ edgeKeyOf e2)) →
      ((∀ e ∈ (if hasNode fd cid then addEdge s pid cid t else s).edges,
        edgeKeyOf e ∈
          (if hasNode fd cid then addEdge s pid cid t else s).edgeSet) ∧
        (if hasNode fd cid then addEdge s pid cid t else s).edges.Pairwise
          (fun e1 e2 => edgeKeyOf e1 ≠ edgeKeyOf e2)) := by
    intro pid t s cid hs
    by_cases hn : hasNode fd cid = true
    · rw [if_pos hn]
      exact addEdge_pres_keys _ _ _ hs.1 hs.2
    · rw [if_neg hn]
      exact hs
  have hstep : ∀ (st : EdgeState) (person : Person),
      person ∈ fd.people →
      ((∀ e ∈ st.edges, edgeKeyOf e ∈ st.edgeSet) ∧
        st.edges.Pairwise (fun e1 e2 => edgeKeyOf e1 ≠ edgeKeyOf e2)) →
      ((∀ e ∈ (personEdges fd st person).edges,
        edgeKeyOf e ∈ (personEdges fd st person).edgeSet) ∧
        (personEdges fd st person).edges.Pairwise
          (fun e1 e2 => edgeKeyOf e1 ≠ edgeKeyOf e2)) := by
    intro st person _ h
    unfold personEdges
    exact foldl_preserve (fun s a _ hs => hcond person.id .spouse s a hs) _
      (foldl_preserve (fun s a _ hs => hcond person.id .parentChild s a hs)
        _ h)
  exact foldl_preserve hstep {} ⟨by simp, by simp⟩

theorem buildEdgesBase_mem {fd : FamilyData} {e : GraphEdge}
    (he : e ∈ (buildEdgesBase fd).edges) :
    ∃ person ∈ fd.people,
      (e.sourceId = person.id ∧ e.type = .parentChild ∧
        e.targetId ∈ person.childIds ∧ e.strength = 1) ∨
      (e.sourceId = person.id ∧ e.type = .spouse ∧
        e.targetId ∈ person.spouseIds ∧ e.strength = 8/10) := by
  have := foldl_preserve (P := fun (st : EdgeState) => ∀ e ∈ st.edges,
      ∃ person ∈ fd.people,
        (e.sourceId = person.id ∧ e.type = .parentChild ∧
          e.targetId ∈ person.childIds ∧ e.strength = 1) ∨
        (e.sourceId = person.id ∧ e.type = .spouse ∧
          e.targetId ∈ person.spouseIds ∧ e.strength = 8/10))
    (f := personEdges fd) (l := fd.people) ?_ {} (by simp)
  · exact this e he
  · intro st person hperson hst e' he'
    unfold personEdges at he'
    rcases condAddFold_mem fd person.id .spouse person.spouseIds _ e' he'
      with h | ⟨cid, hcid, h1, h2, h3, h4⟩
    · rcases condAddFold_mem fd person.id .parentChild person.childIds
        _ e' h with h' | ⟨cid, hcid, h1, h2, h3, h4⟩
      · exact hst e' h'
      · exact ⟨person, hperson, Or.inl ⟨h1, h3, h2 ▸ hcid, by simpa using h4⟩⟩
    · exact ⟨person, hperson, Or.inr ⟨h1, h3, h2 ▸ hcid, by simpa using h4⟩⟩

theorem sibStep_mem {st : SibState} {pq : String × String}
    {e : GraphEdge} (he : e ∈ (sibStep st pq).edges) :
    e ∈ st.edges ∨ (e.sourceId = pq.1 ∧ e.targetId = pq.2 ∧
      e.type = .sibling ∧ e.strength = 6/10) := by
  unfold sibStep at he
  by_cases hk : pairKey pq.1 pq.2 ∈ st.siblingPairs
  · rw [if_pos hk] at he
    exact Or.inl he
  · rw [if_neg hk] at he
    rcases List.mem_append.mp he with he | he
    · exact Or.inl he
    · simp only [List.mem_singleton] at he
      subst he
      exact Or.inr ⟨rfl, rfl, rfl, rfl⟩

theorem sibFold_mem (l : List (String × String)) :
    ∀ st e, e ∈ (l.foldl sibStep st).edges →
      e ∈ st.edges ∨ ∃ pq ∈ l, e.sourceId = pq.1 ∧ e.targetId = pq.2 ∧
        e.type = .sibling ∧ e.strength = 6/10 := by
  induction l with
  | nil => intro st e he; exact Or.inl he
  | cons x xs ih =>
    intro st e he
    rw [List.foldl_cons] at he
    rcases ih _ e he with h | ⟨pq, hpq, hrest⟩
    · rcases sibStep_mem h with h | h
      · exact Or.inl h
      · exact Or.inr ⟨x, List.mem_cons_self _ _, h⟩
    · exact Or.inr ⟨pq, List.mem_cons_of_mem _ hpq, hrest⟩

theorem sibStep_inv {st : SibState} (pq : String × String)
    (h1 : ∀ e ∈ st.edges, pairKey e.sourceId e.targetId ∈ st.siblingPairs)
    (h2 : st.edges.Pairwise (fun e1 e2 =>
      pairKey e1.sourceId e1.targetId ≠ pairKey e2.sourceId e2.targetId)) :
    (∀ e ∈ (sibStep st pq).edges,
      pairKey e.sourceId e.targetId ∈ (sibStep st pq).siblingPairs) ∧
    (sibStep st pq).edges.Pairwise (fun e1 e2 =>
      pairKey e1.sourceId e1.targetId ≠ pairKey e2.sourceId e2.targetId)
    := by
  unfold sibStep
  by_cases hk : pairKey pq.1 pq.2 ∈ st.siblingPairs
  · rw [if_pos hk]
    exact ⟨h1, h2⟩
  · rw [if_neg hk]
    constructor
    · intro e he
      rcases List.mem_append.mp he with he | he
      · exact List.mem_cons_of_mem _ (h1 e he)
      · simp only [List.mem_singleton] at he
        subst he
        exact List.mem_cons_self _ _
    · rw [List.pairwise_append]
      refine ⟨h2, List.pairwise_singleton _ _, ?_⟩
      intro e1 he1 e2 he2
      simp only [List.mem_singleton] at he2
      subst he2
      intro hEq
      apply hk
      have h3 := h1 e1 he1
      rw [hEq] at h3
      exact h3

theorem sibFold_inv (l : List (String × String)) (st : SibState)
    (h1 : ∀ e ∈ st.edges, pairKey e.sourceId e.targetId ∈ st.siblingPairs)
    (h2 : st.edges.Pairwise (fun e1 e2 =>
      pairKey e1.sourceId e1.targetId ≠ pairKey e2.sourceId e2.targetId)) :
    (∀ e ∈ (l.foldl sibStep st).edges,
      pairKey e.sourceId e.targetId ∈ (l.foldl sibStep st).siblingPairs) ∧
    (l.foldl sibStep st).edges.Pairwise (fun e1 e2 =>
      pairKey e1.sourceId e1.targetId ≠ pairKey e2.sourceId e2.targetId)
    := by
  exact foldl_preserve (P := fun (s : SibState) =>
      (∀ e ∈ s.edges, pairKey e.sourceId e.targetId ∈ s.siblingPairs) ∧
      s.edges.Pairwise (fun e1 e2 =>
        pairKey e1.sourceId e1.targetId ≠ pairKey e2.sourceId e2.targetId))
    (fun s a _ hs => sibStep_inv a hs.1 hs.2) st ⟨h1, h2⟩

theorem sibStep_keys_mono {st : SibState} {k : String}
    (pq : String × String) (h : k ∈ st.siblingPairs) :
    k ∈ (sibStep st pq).siblingPairs := by
  unfold sibStep
  by_cases hk : pairKey pq.1 pq.2 ∈ st.siblingPairs
  · rw [if_pos hk]; exact h
  · rw [if_neg hk]; exact List.mem_cons_of_mem _ h

theorem sibFold_keys_mono (l : List (String × String)) :
    ∀ st k, k ∈ st.siblingPairs → k ∈ (l.foldl sibStep st).siblingPairs
    := by
  induction l with
  | nil => intro st k h; exact h
  | cons x xs ih =>
    intro st k h
    rw [List.foldl_cons]
    exact ih _ k (sibStep_keys_mono x h)

theorem sibFold_key_mem (l : List (String × String)) :
    ∀ st pq, pq ∈ l →
      pairKey pq.1 pq.2 ∈ (l.foldl sibStep st).siblingPairs := by
  induction l with
  | nil => intro st pq h; cases h
  | cons x xs ih =>
    intro st pq hpq
    rw [List.foldl_cons]
    rcases List.mem_cons.mp hpq with rfl | hpq'
    · apply sibFold_keys_mono
      unfold sibStep
      by_cases hk : pairKey pq.1 pq.2 ∈ st.siblingPairs
      · rw [if_pos hk]; exact hk
      · rw [if_neg hk]; exact List.mem_cons_self _ _
    · exact ih _ pq hpq'

theorem sibFold_sound (l : List (String × String)) (st : SibState)
    (h : ∀ k ∈ st.siblingPairs,
      ∃ e ∈ st.edges, pairKey e.sourceId e.targetId = k) :
    ∀ k ∈ (l.foldl sibStep st).siblingPairs,
      ∃ e ∈ (l.foldl sibStep st).edges,
        pairKey e.sourceId e.targetId = k := by
  apply foldl_preserve (P := fun (s : SibState) => ∀ k ∈ s.siblingPairs,
    ∃ e ∈ s.edges, pairKey e.sourceId e.targetId = k) ?_ st h
  intro s pq _ hs k hk
  unfold sibStep at hk ⊢
  by_cases hkey : pairKey pq.1 pq.2 ∈ s.siblingPairs
  · rw [if_pos hkey] at hk ⊢
    exact hs k hk
  · rw [if_neg hkey] at hk ⊢
    rcases List.mem_cons.mp hk with rfl | hk'
    · refine ⟨_, List.mem_append_right _ (List.mem_singleton_self _), rfl⟩
    · obtain ⟨e, he, hke⟩ := hs k hk'
      exact ⟨e, List.mem_append_left _ he, hke⟩

theorem insertChild_lookup_self (m : List (String × List String))
    (p c : String) :
    lookupPTC (insertChild m p c) p =
      some (match lookupPTC m p with
            | none => [c]
            | some kids => if c ∈ kids then kids else kids ++ [c]) := by
  induction m with
  | nil => simp [insertChild, lookupPTC]
  | cons h rest ih =>
    obtain ⟨hp, kids⟩ := h
    by_cases hpp : hp = p
    · subst hpp
      simp [insertChild, lookupPTC]
    · simp only [insertChild, if_neg hpp]
      unfold lookupPTC at ih ⊢
      rw [List.find?_cons_of_neg _ (by simpa using hpp),
          List.find?_cons_of_neg _ (by simpa using hpp)]
      exact ih

theorem insertChild_lookup_ne (m : List (String × List String))
    (p c q : String) (h : q ≠ p) :
    lookupPTC (insertChild m p c) q = lookupPTC m q := by
  induction m with
  | nil =>
    simp [insertChild, lookupPTC, List.find?_cons_of_neg,
      Ne.symm h]
  | cons hd rest ih =>
    obtain ⟨hp, kids⟩ := hd
    by_cases hpp : hp = p
    · subst hpp
      unfold insertChild lookupPTC
      rw [if_pos rfl]
      rw [List.find?_cons_of_neg _ (by simpa using Ne.symm h),
          List.find?_cons_of_neg _ (by simpa using Ne.symm h)]
    · unfold insertChild lookupPTC
      rw [if_neg hpp]
      by_cases hq : hp = q
      · subst hq
        rw [List.find?_cons_of_pos _ (by simp),
            List.find?_cons_of_pos _ (by simp)]
      · rw [List.find?_cons_of_neg _ (by simpa using hq),
            List.find?_cons_of_neg _ (by simpa using hq)]
        exact ih

theorem insertChild_lookup_self_some
    {m : List (String × List String)} {p : String} {kids : List String}
    (c : String) (hm : lookupPTC m p = some kids) :
    lookupPTC (insertChild m p c) p =
      some (if c ∈ kids then kids else kids ++ [c]) := by
  have h0 := insertChild_lookup_self m p c
  rw [hm] at h0
  exact h0

theorem insertChild_lookup_self_none
    {m : List (String × List String)} {p : String}
    (c : String) (hm : lookupPTC m p = none) :
    lookupPTC (insertChild m p c) p = some [c] := by
  have h0 := insertChild_lookup_self m p c
  rw [hm] at h0
  exact h0

theorem insertChild_lookup_mem_mono
    {m : List (String × List String)} {P x : String} {kids : List String}
    (p c : String) (h : lookupPTC m P = some kids) (hx : x ∈ kids) :
    ∃ kids2, lookupPTC (insertChild m p c) P = some kids2 ∧ x ∈ kids2
    := by
  by_cases hPp : P = p
  · subst hPp
    by_cases hc : c ∈ kids
    · exact ⟨kids,
        by rw [insertChild_lookup_self_some c h, if_pos hc], hx⟩
    · exact ⟨kids ++ [c],
        by rw [insertChild_lookup_self_some c h, if_neg hc],
        List.mem_append_left _ hx⟩
  · rw [insertChild_lookup_ne _ _ _ _ hPp]
    exact ⟨kids, h, hx⟩

theorem insertChild_established (m : List (String × List String))
    (p c : String) :
    ∃ kids, lookupPTC (insertChild m p c) p = some kids ∧ c ∈ kids := by
  cases hm : lookupPTC m p with
  | none =>
    exact ⟨[c], insertChild_lookup_self_none c hm,
      List.mem_singleton_self _⟩
  | some kids =>
    by_cases hc : c ∈ kids
    · exact ⟨kids,
        by rw [insertChild_lookup_self_some c hm, if_pos hc], hc⟩
    · exact ⟨kids ++ [c],
        by rw [insertChild_lookup_self_some c hm, if_neg hc],
        List.mem_append_right _ (List.mem_singleton_self _)⟩

theorem ptc_mem (fd : FamilyData) (person : Person)
    (hperson : person ∈ fd.people) (parentId : String)
    (hpar : parentId ∈ person.parentIds) :
    ∃ kids, lookupPTC (parentToChildren fd) parentId = some kids ∧
      person.id ∈ kids := by
  have hmono : ∀ (m : List (String × List String)) (p c : String),
      (∃ kids, lookupPTC m parentId = some kids ∧ person.id ∈ kids) →
      (∃ kids, lookupPTC (insertChild m p c) parentId = some kids ∧
        person.id ∈ kids) := by
    rintro m p c ⟨kids, hl, hx⟩
    exact insertChild_lookup_mem_mono p c hl hx
  have hinner : ∀ (cid : String) (lst : List String)
      (m : List (String × List String)),
      (∃ kids, lookupPTC m parentId = some kids ∧ person.id ∈ kids) →
      (∃ kids, lookupPTC (lst.foldl
          (fun m pid => insertChild m pid cid) m) parentId = some kids ∧
        person.id ∈ kids) := by
    intro cid lst m hm
    exact foldl_preserve (fun s a _ hs => hmono s a cid hs) m hm
  obtain ⟨l1, l2, hsplit⟩ := List.append_of_mem hperson
  obtain ⟨a1, a2, hasplit⟩ := List.append_of_mem hpar
  unfold parentToChildren
  rw [hsplit, List.foldl_append, List.foldl_cons]
  apply foldl_preserve (fun s a _ hs => hinner a.id a.parentIds s hs)
  rw [hasplit, List.foldl_append, List.foldl_cons]
  apply hinner
  exact insertChild_established _ _ _

theorem insertChild_sound {Q : String → String → Prop}
    (m : List (String × List String)) (p c : String)
    (hm : ∀ entry ∈ m, ∀ x ∈ entry.2, Q entry.1 x) (hpc : Q p c) :
    ∀ entry ∈ insertChild m p c, ∀ x ∈ entry.2, Q entry.1 x := by
  induction m with
  | nil =>
    intro entry hentry x hx
    simp only [insertChild, List.mem_singleton] at hentry
    subst hentry
    simp only [List.mem_singleton] at hx
    subst hx
    exact hpc
  | cons hd rest ih =>
    obtain ⟨hp, kids⟩ := hd
    intro entry hentry x hx
    by_cases hpp : hp = p
    · subst hpp
      simp only [insertChild, if_pos rfl] at hentry
      rcases List.mem_cons.mp hentry with rfl | hrest
      · by_cases hc : c ∈ kids
        · rw [if_pos hc] at hx
          exact hm _ (List.mem_cons_self _ _) x hx
        · rw [if_neg hc] at hx
          rcases List.mem_append.mp hx with hx | hx
          · exact hm _ (List.mem_cons_self _ _) x hx
          · simp only [List.mem_singleton] at hx
            subst hx
            exact hpc
      · exact hm entry (List.mem_cons_of_mem _ hrest) x hx
    · simp only [insertChild, if_neg hpp] at hentry
      rcases List.mem_cons.mp hentry with rfl | hrest
      · exact hm _ (List.mem_cons_self _ _) x hx
      · exact ih (fun ent hent => hm ent (List.mem_cons_of_mem _ hent))
          entry hrest x hx

theorem ptc_sound (fd : FamilyData) :
    ∀ entry ∈ parentToChildren fd, ∀ c ∈ entry.2,
      ∃ person ∈ fd.people, person.id = c ∧ entry.1 ∈ person.parentIds
    := by
  unfold parentToChildren
  apply foldl_preserve (P := fun (m : List (String × List String)) =>
    ∀ entry ∈ m, ∀ c ∈ entry.2, ∃ person ∈ fd.people,
      person.id = c ∧ entry.1 ∈ person.parentIds) ?_ [] (by simp)
  intro m person hperson hm
  apply foldl_preserve (P := fun (m : List (String × List String)) =>
    ∀ entry ∈ m, ∀ c ∈ entry.2, ∃ person ∈ fd.people,
      person.id = c ∧ entry.1 ∈ person.parentIds) ?_ m hm
  intro s parentId hparentId hs
  exact insertChild_sound (Q := fun pid cid => ∃ person ∈ fd.people,
      person.id = cid ∧ pid ∈ person.parentIds)
    s parentId person.id hs ⟨person, hperson, rfl, hparentId⟩

theorem insertChild_nodup (m : List (String × List String))
    (p c : String) (h : ∀ entry ∈ m, entry.2.Nodup) :
    ∀ entry ∈ insertChild m p c, entry.2.Nodup := by
  induction m with
  | nil =>
    intro entry hentry
    simp only [insertChild, List.mem_singleton] at hentry
    subst hentry
    simp
  | cons hd rest ih =>
    obtain ⟨hp, kids⟩ := hd
    intro entry hentry
    by_cases hpp : hp = p
    · subst hpp
      simp only [insertChild, if_pos rfl] at hentry
      rcases List.mem_cons.mp hentry with rfl | hrest
      · by_cases hc : c ∈ kids
        · rw [if_pos hc]
          exact h _ (List.mem_cons_self _ _)
        · rw [if_neg hc]
          have hk : kids.Nodup := h _ (List.mem_cons_self _ _)
          simp [List.nodup_append, hk, hc]
      · exact h entry (List.mem_cons_of_mem _ hrest)
    · simp only [insertChild, if_neg hpp] at hentry
      rcases List.mem_cons.mp hentry with rfl | hrest
      · exact h _ (List.mem_cons_self _ _)
      · exact ih (fun ent hent => h ent (List.mem_cons_of_mem _ hent))
          entry hrest

theorem ptc_kids_nodup (fd : FamilyData) :
    ∀ entry ∈ parentToChildren fd, entry.2.Nodup := by
  unfold parentToChildren
  apply foldl_preserve (P := fun (m : List (String × List String)) =>
    ∀ entry ∈ m, entry.2.Nodup) ?_ [] (by simp)
  intro m person _ hm
  apply foldl_preserve (P := fun (m : List (String × List String)) =>
    ∀ entry ∈ m, entry.2.Nodup) ?_ m hm
  intro s parentId _ hs
  exact insertChild_nodup s parentId person.id hs

theorem allPairs_mem_of {α : Type} {a b : α} :
    ∀ {l : List α}, a ∈ l → b ∈ l → a ≠ b →
      (a, b) ∈ allPairs l ∨ (b, a) ∈ allPairs l := by
  intro l
  induction l with
  | nil => intro ha; cases ha
  | cons x xs ih =>
    intro ha hb hne
    rcases List.mem_cons.mp ha with rfl | ha'
    · rcases List.mem_cons.mp hb with rfl | hb'
      · exact absurd rfl hne
      · left
        exact List.mem_append_left _ (List.mem_map.mpr ⟨b, hb', rfl⟩)
    · rcases List.mem_cons.mp hb with rfl | hb'
      · right
        exact List.mem_append_left _ (List.mem_map.mpr ⟨a, ha', rfl⟩)
      · rcases ih ha' hb' hne with h | h
        · exact Or.inl (List.mem_append_right _ h)
        · exact Or.inr (List.mem_append_right _ h)

theorem allPairs_sub {α : Type} {p : α × α} :
    ∀ {l : List α}, p ∈ allPairs l → p.1 ∈ l ∧ p.2 ∈ l := by
  intro l
  induction l with
  | nil => intro h; cases h
  | cons x xs ih =>
    intro h
    rcases List.mem_append.mp h with h | h
    · obtain ⟨y, hy, hyp⟩ := List.mem_map.mp h
      subst hyp
      exact ⟨List.mem_cons_self _ _, List.mem_cons_of_mem _ hy⟩
    · obtain ⟨h1, h2⟩ := ih h
      exact ⟨List.mem_cons_of_mem _ h1, List.mem_cons_of_mem _ h2⟩

theorem allPairs_ne {α : Type} {a b : α} :
    ∀ {l : List α}, l.Nodup → (a, b) ∈ allPairs l → a ≠ b := by
  intro l
  induction l with
  | nil => intro _ h; cases h
  | cons x xs ih =>
    intro hnd h
    rcases List.pairwise_cons.mp hnd with ⟨hx, hxs⟩
    rcases List.mem_append.mp h with h | h
    · obtain ⟨y, hy, hyp⟩ := List.mem_map.mp h
      injection hyp with h1 h2
      subst h1
      subst h2
      exact hx y hy
    · exact ih hxs h

theorem siblingSteps_mem {fd : FamilyData} {pq : String × String} :
    pq ∈ siblingSteps fd ↔
      ∃ entry ∈ parentToChildren fd, pq ∈ allPairs entry.2 := by
  unfold siblingSteps
  constructor
  · intro h
    obtain ⟨l, hl, hpql⟩ := List.mem_flatten.mp h
    obtain ⟨entry, hentry, hfl⟩ := List.mem_map.mp hl
    exact ⟨entry, hentry, hfl ▸ hpql⟩
  · rintro ⟨entry, hentry, hpq⟩
    exact List.mem_flatten.mpr ⟨allPairs entry.2,
      List.mem_map.mpr ⟨entry, hentry, rfl⟩, hpq⟩

theorem lookupPTC_mem {m : List (String × List String)} {p : String}
    {kids : List String} (h : lookupPTC m p = some kids) :
    (p, kids) ∈ m := by
  unfold lookupPTC at h
  cases hf : m.find? (·.1 = p) with
  | none => rw [hf] at h; cases h
  | some pr =>
    rw [hf] at h
    simp only [Option.map_some', Option.some.injEq] at h
    have hmem := List.mem_of_find?_eq_some hf
    have hpred := List.find?_some hf
    obtain ⟨pr1, pr2⟩ := pr
    simp only [decide_eq_true_eq] at hpred
    subst hpred
    subst h
    exact hmem

theorem siblingEdges_shape {fd : FamilyData} {e : GraphEdge}
    (he : e ∈ siblingEdges fd) :
    e.type = .sibling ∧ e.strength = 6/10 ∧
    e.sourceId ∈ idsOf fd ∧ e.targetId ∈ idsOf fd ∧
    e.sourceId ≠ e.targetId ∧
    ∃ parentId,
      (∃ p ∈ fd.people, p.id = e.sourceId ∧ parentId ∈ p.parentIds) ∧
      (∃ q ∈ fd.people, q.id = e.targetId ∧ parentId ∈ q.parentIds) := by
  unfold siblingEdges at he
  rcases sibFold_mem _ _ _ he with h | ⟨pq, hpq, h1, h2, ht, hs⟩
  · exact absurd h (List.not_mem_nil e)
  · obtain ⟨entry, hentry, hap⟩ := siblingSteps_mem.mp hpq
    obtain ⟨hm1, hm2⟩ := allPairs_sub hap
    obtain ⟨p1, hp1, hid1, hpar1⟩ := ptc_sound fd entry hentry pq.1 hm1
    obtain ⟨p2, hp2, hid2, hpar2⟩ := ptc_sound fd entry hentry pq.2 hm2
    have hnd : entry.2.Nodup := ptc_kids_nodup fd entry hentry
    have hne : pq.1 ≠ pq.2 := by
      obtain ⟨x, y⟩ := pq
      exact allPairs_ne hnd hap
    rw [h1, h2]
    refine ⟨ht, hs, ?_, ?_, hne, entry.1,
      ⟨p1, hp1, hid1, hpar1⟩, ⟨p2, hp2, hid2, hpar2⟩⟩
    · rw [← hid1]
      exact List.mem_map_of_mem _ hp1
    · rw [← hid2]
      exact List.mem_map_of_mem _ hp2

theorem buildEdgesBase_type {fd : FamilyData} {e : GraphEdge}
    (he : e ∈ (buildEdgesBase fd).edges) : e.type ≠ .sibling := by
  obtain ⟨person, _, h | h⟩ := buildEdgesBase_mem he <;>
    rw [h.2.1] <;> intro hc <;> cases hc

theorem sibling_filter_le_one (fd : FamilyData) (a b : String)
    (k : EdgeType) :
    ((siblingEdges fd).filter (edgeMatches a b k)).length ≤ 1 := by
  have hinv := sibFold_inv (siblingSteps fd) {} (by simp) (by simp)
  exact filter_key_le_one _ _ (fun e => pairKey e.sourceId e.targetId)
    (pairKey a b) hinv.2 (fun x _ hpx => (edgeMatches_key hpx).2)

theorem base_filter_le_one (fd : FamilyData) (a b : String)
    (k : EdgeType) :
    (((buildEdgesBase fd).edges).filter (edgeMatches a b k)).length ≤ 1
    := by
  exact filter_key_le_one _ _ edgeKeyOf (edgeKey a b k)
    (buildEdgesBase_keys fd).2 (fun x _ hpx => edgeMatches_keyOf hpx)

/-- C3: for every unordered identifier pair and edge kind, the built
graph contains at most one edge with that pair and kind; in the
concrete both-directions dataset, the parent-child pair gets exactly
one edge. -/
theorem c3_edge_dedup :
    (∀ (fd : FamilyData) (a b : String) (k : EdgeType),
      ((graphEdges fd).filter (edgeMatches a b k)).length ≤ 1) ∧
    ((graphEdges c3Data).filter
      (edgeMatches "P" "c1" .parentChild)).length = 1 ∧
    ((graphEdges c3Data).filter
      (edgeMatches "P" "c2" .parentChild)).length = 1 := by
  refine ⟨?_, by decide, by decide⟩
  intro fd a b k
  unfold graphEdges
  rw [List.filter_append, List.length_append]
  by_cases hk : k = .sibling
  · subst hk
    have h0 : (((buildEdgesBase fd).edges).filter
        (edgeMatches a b .sibling)).length = 0 := by
      rw [List.length_eq_zero, List.filter_eq_nil_iff]
      intro e he hm
      exact buildEdgesBase_type he (edgeMatches_key hm).1
    rw [h0]
    have := sibling_filter_le_one fd a b .sibling
    omega
  · have h0 : ((siblingEdges fd).filter (edgeMatches a b k)).length = 0
        := by
      rw [List.length_eq_zero, List.filter_eq_nil_iff]
      intro e he hm
      exact hk ((edgeMatches_key hm).1 ▸ (siblingEdges_shape he).1)
    rw [h0]
    have := base_filter_le_one fd a b k
    omega

/-- C10: a parent-child edge exists only when the parent's `childIds`
declares the child; sibling inference connects two distinct co-listed
children, each of which lists the shared parent; concretely, a
relationship declared only via `parentIds` yields no edge at all and
both people stay at generation 0. -/
theorem c10_parentIds_only :
    (∀ (fd : FamilyData) (e : GraphEdge), e ∈ graphEdges fd →
      e.type = .parentChild →
      ∃ person ∈ fd.people, e.sourceId = person.id ∧
        e.targetId ∈ person.childIds) ∧
    (∀ (fd : FamilyData) (e : GraphEdge), e ∈ graphEdges fd →
      e.type = .sibling →
      e.sourceId ≠ e.targetId ∧
      ∃ parentId,
        (∃ p ∈ fd.people, p.id = e.sourceId ∧ parentId ∈ p.parentIds) ∧
        (∃ q ∈ fd.people, q.id = e.targetId ∧ parentId ∈ q.parentIds)) ∧
    (graphEdges c10Data = [] ∧
      generationOf (familyGraph c10Data) "C" = some 0 ∧
      generationOf (familyGraph c10Data) "B" = some 0) := by
  refine ⟨?_, ?_, by decide, by decide, by decide⟩
  · intro fd e he ht
    unfold graphEdges at he
    rcases List.mem_append.mp he with he | he
    · obtain ⟨person, hperson, h | h⟩ := buildEdgesBase_mem he
      · exact ⟨person, hperson, h.1, h.2.2.1⟩
      · rw [h.2.1] at ht
        cases ht
    · rw [(siblingEdges_shape he).1] at ht
      cases ht
  · intro fd e he ht
    unfold graphEdges at he
    rcases List.mem_append.mp he with he | he
    · exact absurd ht (buildEdgesBase_type he)
    · obtain ⟨_, _, _, _, hne, hpar⟩ := siblingEdges_shape he
      exact ⟨hne, hpar⟩

/-- C2, counterexample: in a dataset whose identifiers collide under
the sorted-join key, the distinct persons `"a"` and `"b-c"` share the
parent `"p2"` yet get no sibling edge at all (the colliding pair
`"a-b"`/`"c"` consumed the key `"a-b-c"`). -/
theorem c2_counterexample :
    (∃ p ∈ c2CexData.people, ∃ q ∈ c2CexData.people,
      p.id = "a" ∧ q.id = "b-c" ∧ p.id ≠ q.id ∧
      "p2" ∈ p.parentIds ∧ "p2" ∈ q.parentIds) ∧
    ((graphEdges c2CexData).filter
      (edgeMatches "a" "b-c" .sibling)).length = 0 :=
  ⟨by decide, by decide⟩

/-- C2, amended: when the canonical sorted-pair keys of the dataset's
identifiers are collision-free (in particular whenever no identifier
contains `'-'`), any two distinct persons sharing at least one parent
get exactly one sibling edge, of strength 0.6, and a pair sharing
several parents still gets exactly one. -/
theorem c2_sibling_inference (fd : FamilyData)
    (hinj : pairKeyInjective fd) (p q : Person) (hp : p ∈ fd.people)
    (hq : q ∈ fd.people) (hne : p.id ≠ q.id) (parentId : String)
    (hpp : parentId ∈ p.parentIds) (hqp : parentId ∈ q.parentIds) :
    ((graphEdges fd).filter (edgeMatches p.id q.id .sibling)).length = 1
    ∧ ∀ e ∈ graphEdges fd, edgeMatches p.id q.id .sibling e = true →
        e.strength = 6/10 := by
  have hple : (((buildEdgesBase fd).edges).filter
      (edgeMatches p.id q.id .sibling)).length = 0 := by
    rw [List.length_eq_zero, List.filter_eq_nil_iff]
    intro e he hm
    exact buildEdgesBase_type he (edgeMatches_key hm).1
  obtain ⟨kids, hkids, hpk⟩ := ptc_mem fd p hp parentId hpp
  obtain ⟨kids2, hkids2, hqk⟩ := ptc_mem fd q hq parentId hqp
  rw [hkids] at hkids2
  injection hkids2 with hkk
  subst hkk
  have hentry : (parentId, kids) ∈ parentToChildren fd :=
    lookupPTC_mem hkids
  have hstep : (p.id, q.id) ∈ siblingSteps fd ∨
      (q.id, p.id) ∈ siblingSteps fd := by
    rcases allPairs_mem_of hpk hqk hne with h | h
    · exact Or.inl (siblingSteps_mem.mpr ⟨(parentId, kids), hentry, h⟩)
    · exact Or.inr (siblingSteps_mem.mpr ⟨(parentId, kids), hentry, h⟩)
  have hkeymem : pairKey p.id q.id ∈
      ((siblingSteps fd).foldl sibStep {}).siblingPairs := by
    rcases hstep with h | h
    · exact sibFold_key_mem _ _ _ h
    · have := sibFold_key_mem ((siblingSteps fd)) {} _ h
      rw [pairKey_comm]
      exact this
  obtain ⟨e, he, hkey⟩ := sibFold_sound _ {} (by simp) _ hkeymem
  have he' : e ∈ siblingEdges fd := he
  obtain ⟨ht, hs, hsrc, htgt, _, _⟩ := siblingEdges_shape he'
  have hmatch : edgeMatches p.id q.id .sibling e = true := by
    have hsort := hinj e.sourceId hsrc e.targetId htgt p.id
      (List.mem_map_of_mem _ hp) q.id (List.mem_map_of_mem _ hq) hkey
    unfold edgeMatches
    rcases sortPair_eq_cases hsort with ⟨h1, h2⟩ | ⟨h1, h2⟩ <;>
      simp [ht, h1, h2]
  have hexists : e ∈ (siblingEdges fd).filter
      (edgeMatches p.id q.id .sibling) :=
    List.mem_filter.mpr ⟨he', hmatch⟩
  have hone : ((siblingEdges fd).filter
      (edgeMatches p.id q.id .sibling)).length = 1 := by
    have hle := sibling_filter_le_one fd p.id q.id .sibling
    have hpos : 0 < ((siblingEdges fd).filter
        (edgeMatches p.id q.id .sibling)).length :=
      List.length_pos.mpr (List.ne_nil_of_mem hexists)
    omega
  constructor
  · unfold graphEdges
    rw [List.filter_append, List.length_append, hple, hone]
  · intro e2 he2 hm2
    unfold graphEdges at he2
    rcases List.mem_append.mp he2 with he2 | he2
    · exact absurd (edgeMatches_key hm2).1 (buildEdgesBase_type he2)
    · exact (siblingEdges_shape he2).2.1

/-- C2, witness: the sibling scenario with shared parent `P` applied
through the amended theorem. -/
theorem c2_sibling_inference_witness :
    pairKeyInjective c2SibData ∧
    ((graphEdges c2SibData).filter
      (edgeMatches "X" "Y" .sibling)).length = 1 := by
  refine ⟨by decide, ?_⟩
  exact (c2_sibling_inference c2SibData (by decide)
    { id := "X", parentIds := ["P"] } { id := "Y", parentIds := ["P"] }
    (by decide) (by decide) (by decide) "P" (by decide) (by decide)).1

theorem setGen_fst (id : String) (g : Int) (e : String × Int) :
    ((if e.1 = id then (e.1, g) else e) : String × Int).1 = e.1 := by
  by_cases h : e.1 = id <;> simp [h]

theorem lookupGen_setGen (gens : List (String × Int)) (id v : String)
    (g : Int) :
    lookupGen (setGen gens id g) v =
      if v = id then (lookupGen gens v).map (fun _ => g)
      else lookupGen gens v := by
  unfold lookupGen setGen
  rw [List.find?_map]
  have hpred : ((fun x => decide (x.1 = v)) ∘
      (fun e => if e.1 = id then (e.1, g) else e)) =
      (fun (x : String × Int) => decide (x.1 = v)) := by
    funext e
    simp [setGen_fst]
  rw [hpred]
  cases hf : gens.find? (fun x => decide (x.1 = v)) with
  | none => simp
  | some e =>
    obtain ⟨k, val⟩ := e
    have hk : k = v := by
      have := List.find?_some hf
      simpa using this
    subst hk
    by_cases hid : k = id
    · simp [hid]
    · simp [hid]

theorem setGen_any (gens : List (String × Int)) (id v : String)
    (g : Int) :
    (setGen gens id g).any (·.1 = v) = gens.any (·.1 = v) := by
  unfold setGen
  rw [List.any_map]
  congr 1
  funext e
  simp [setGen_fst]

theorem gens_any_iff (gens : List (String × Int)) (v : String) :
    gens.any (·.1 = v) = true ↔ ∃ g, lookupGen gens v = some g := by
  unfold lookupGen
  cases hf : gens.find? (fun x => decide (x.1 = v)) with
  | none =>
    simp only [Option.map_none', List.any_eq_true]
    constructor
    · rintro ⟨x, hx, hpx⟩
      have := List.find?_eq_none.mp hf x hx
      simp only [decide_eq_true_eq] at hpx this
      exact absurd hpx this
    · rintro ⟨g, hg⟩
      cases hg
  | some e =>
    simp only [Option.map_some']
    constructor
    · intro _
      exact ⟨e.2, rfl⟩
    · intro _
      rw [List.any_eq_true]
      exact ⟨e, List.mem_of_find?_eq_some hf,
        by simpa using List.find?_some hf⟩

theorem pcNeighbor_some {st : GenState} {id : String} {gen : Int}
    {e : GraphEdge} {nId : String} {g : Int}
    (h : pcNeighbor st id gen e = some (nId, g)) :
    nId ∉ st.visited ∧
    ((e.sourceId = id ∧ e.targetId = nId ∧ g = gen + 1) ∨
     (e.targetId = id ∧ e.sourceId = nId ∧ g = gen - 1)) := by
  unfold pcNeighbor at h
  split_ifs at h with h1 h2
  · obtain ⟨hsrc, htgt⟩ := h1
    injection h with h'
    injection h' with ha hb
    subst ha
    exact ⟨htgt, Or.inl ⟨hsrc, rfl, hb.symm⟩⟩
  · obtain ⟨htgt, hsrc⟩ := h2
    injection h with h'
    injection h' with ha hb
    subst ha
    exact ⟨hsrc, Or.inr ⟨htgt, rfl, hb.symm⟩⟩

theorem ssNeighbor_some {st : GenState} {id : String} {e : GraphEdge}
    {nId : String} (h : ssNeighbor st id e = some nId) :
    nId ∉ st.visited ∧
    ((e.sourceId = id ∧ e.targetId = nId) ∨
     (e.targetId = id ∧ e.sourceId = nId)) := by
  unfold ssNeighbor at h
  split_ifs at h with h1 h2
  · obtain ⟨hsrc, htgt⟩ := h1
    injection h with h'
    subst h'
    exact ⟨htgt, Or.inl ⟨hsrc, rfl⟩⟩
  · obtain ⟨htgt, hsrc⟩ := h2
    injection h with h'
    subst h'
    exact ⟨hsrc, Or.inr ⟨htgt, rfl⟩⟩

theorem pcStep_cases (id : String) (gen : Int) (st : GenState)
    (e : GraphEdge) :
    pcStep id gen st e = st ∨
    ∃ nId g, e.type = .parentChild ∧
      pcNeighbor st id gen e = some (nId, g) ∧
      ((st.gens.any (·.1 = nId) = true ∧
        pcStep id gen st e =
          { gens := setGen st.gens nId g
            visited := st.visited ++ [nId]
            queue := st.queue ++ [(nId, g)] }) ∨
       (¬(st.gens.any (·.1 = nId) = true) ∧
        pcStep id gen st e = { st with visited := st.visited ++ [nId] }))
    := by
  by_cases ht : e.type ≠ .parentChild
  · left
    simp [pcStep, ht]
  · cases hn : pcNeighbor st id gen e with
    | none => left; simp [pcStep, ht, hn]
    | some p =>
      obtain ⟨nId, g⟩ := p
      right
      refine ⟨nId, g, not_not.mp ht, rfl, ?_⟩
      by_cases ha : st.gens.any (·.1 = nId) = true
      · exact Or.inl ⟨ha, by simp [pcStep, ht, hn, ha]⟩
      · exact Or.inr ⟨ha, by simp [pcStep, ht, hn, ha]⟩

theorem ssStep_cases (id : String) (gen : Int) (st : GenState)
    (e : GraphEdge) :
    ssStep id gen st e = st ∨
    ∃ nId, (e.type = .spouse ∨ e.type = .sibling) ∧
      ssNeighbor st id e = some nId ∧
      ((st.gens.any (·.1 = nId) = true ∧
        ssStep id gen st e =
          { gens := setGen st.gens nId gen
            visited := st.visited ++ [nId]
            queue := st.queue ++ [(nId, gen)] }) ∨
       (¬(st.gens.any (·.1 = nId) = true) ∧
        ssStep id gen st e = { st with visited := st.visited ++ [nId] }))
    := by
  by_cases ht : e.type = .spouse ∨ e.type = .sibling
  · cases hn : ssNeighbor st id e with
    | none => left; simp [ssStep, ht, hn]
    | some nId =>
      right
      refine ⟨nId, ht, rfl, ?_⟩
      by_cases ha : st.gens.any (·.1 = nId) = true
      · exact Or.inl ⟨ha, by simp [ssStep, ht, hn, ha]⟩
      · exact Or.inr ⟨ha, by simp [ssStep, ht, hn, ha]⟩
  · left
    simp [ssStep, ht]

theorem pcStep_mono {v : String} (id : String) (gen : Int)
    (st : GenState) (e : GraphEdge) (hv : v ∈ st.visited) :
    v ∈ (pcStep id gen st e).visited := by
  rcases pcStep_cases id gen st e with h | ⟨nId, g, _, _, ⟨_, h⟩ | ⟨_, h⟩⟩
    <;> rw [h] <;> first
    | exact hv
    | exact List.mem_append_left _ hv

theorem ssStep_mono {v : String} (id : String) (gen : Int)
    (st : GenState) (e : GraphEdge) (hv : v ∈ st.visited) :
    v ∈ (ssStep id gen st e).visited := by
  rcases ssStep_cases id gen st e with h | ⟨nId, _, _, ⟨_, h⟩ | ⟨_, h⟩⟩
    <;> rw [h] <;> first
    | exact hv
    | exact List.mem_append_left _ hv

theorem pcStep_stableGen {v : String} (id : String) (gen : Int)
    (st : GenState) (e : GraphEdge) (hv : v ∈ st.visited) :
    lookupGen (pcStep id gen st e).gens v = lookupGen st.gens v := by
  rcases pcStep_cases id gen st e with h |
    ⟨nId, g, _, hn, ⟨_, h⟩ | ⟨_, h⟩⟩ <;> rw [h]
  · have hne : v ≠ nId := fun hc => (pcNeighbor_some hn).1 (hc ▸ hv)
    simp only [lookupGen_setGen, if_neg hne]

theorem ssStep_stableGen {v : String} (id : String) (gen : Int)
    (st : GenState) (e : GraphEdge) (hv : v ∈ st.visited) :
    lookupGen (ssStep id gen st e).gens v = lookupGen st.gens v := by
  rcases ssStep_cases id gen st e with h |
    ⟨nId, _, hn, ⟨_, h⟩ | ⟨_, h⟩⟩ <;> rw [h]
  · have hne : v ≠ nId := fun hc => (ssNeighbor_some hn).1 (hc ▸ hv)
    simp only [lookupGen_setGen, if_neg hne]

theorem pcFold_stable {v : String} (edges : List GraphEdge)
    (id : String) (gen : Int) (st : GenState) (hv : v ∈ st.visited) :
    v ∈ (edges.foldl (pcStep id gen) st).visited ∧
    lookupGen (edges.foldl (pcStep id gen) st).gens v =
      lookupGen st.gens v := by
  have := foldl_preserve (P := fun s => v ∈ s.visited ∧
      lookupGen s.gens v = lookupGen st.gens v)
    (f := pcStep id gen) (l := edges) ?_ st ⟨hv, rfl⟩
  · exact this
  · intro s a _ hs
    exact ⟨pcStep_mono id gen s a hs.1,
      (pcStep_stableGen id gen s a hs.1).trans hs.2⟩

theorem ssFold_stable {v : String} (edges : List GraphEdge)
    (id : String) (gen : Int) (st : GenState) (hv : v ∈ st.visited) :
    v ∈ (edges.foldl (ssStep id gen) st).visited ∧
    lookupGen (edges.foldl (ssStep id gen) st).gens v =
      lookupGen st.gens v := by
  have := foldl_preserve (P := fun s => v ∈ s.visited ∧
      lookupGen s.gens v = lookupGen st.gens v)
    (f := ssStep id gen) (l := edges) ?_ st ⟨hv, rfl⟩
  · exact this
  · intro s a _ hs
    exact ⟨ssStep_mono id gen s a hs.1,
      (ssStep_stableGen id gen s a hs.1).trans hs.2⟩

theorem ssPass_new (edges : List GraphEdge) (id : String) (gen : Int) :
    ∀ (st : GenState) (v : String), v ∉ st.visited →
      st.gens.any (·.1 = v) = true →
      v ∈ (edges.foldl (ssStep id gen) st).visited →
      lookupGen (edges.foldl (ssStep id gen) st).gens v = some gen := by
  induction edges with
  | nil => intro st v hv _ hva; exact absurd hva hv
  | cons e rest ih =>
    intro st v hv hany hva
    rw [List.foldl_cons] at hva ⊢
    by_cases h1 : v ∈ (ssStep id gen st e).visited
    · have hlook : lookupGen (ssStep id gen st e).gens v = some gen := by
        rcases ssStep_cases id gen st e with h |
          ⟨nId, ht, hn, ⟨ha, h⟩ | ⟨ha, h⟩⟩
        · rw [h] at h1
          exact absurd h1 hv
        · rw [h] at h1 ⊢
          rcases List.mem_append.mp h1 with hc | hc
          · exact absurd hc hv
          · simp only [List.mem_singleton] at hc
            subst hc
            obtain ⟨g0, hg0⟩ := (gens_any_iff _ _).mp hany
            simp only [lookupGen_setGen, if_pos rfl, hg0, Option.map_some',
              eq_self_iff_true, if_true]
        · rw [h] at h1
          rcases List.mem_append.mp h1 with hc | hc
          · exact absurd hc hv
          · simp only [List.mem_singleton] at hc
            subst hc
            exact absurd hany ha
      exact ((ssFold_stable rest id gen _ h1).2).trans hlook
    · have hany' : (ssStep id gen st e).gens.any (·.1 = v) = true := by
        rcases ssStep_cases id gen st e with h |
          ⟨nId, ht, hn, ⟨ha, h⟩ | ⟨ha, h⟩⟩ <;> rw [h]
        · exact hany
        · rw [setGen_any]
          exact hany
        · exact hany
      exact ih _ v h1 hany' hva

theorem pcPass_child (edges : List GraphEdge) (id : String) (gen : Int)
    : ∀ (st : GenState) (v : String), v ∉ st.visited →
      st.gens.any (·.1 = v) = true →
      (∃ e ∈ edges, e.type = .parentChild ∧ e.sourceId = id ∧
        e.targetId = v) →
      (∀ e ∈ edges, e.type = .parentChild →
        ¬(e.sourceId = v ∧ e.targetId = id)) →
      v ∈ (edges.foldl (pcStep id gen) st).visited ∧
      lookupGen (edges.foldl (pcStep id gen) st).gens v = some (gen + 1)
    := by
  induction edges with
  | nil =>
    rintro st v _ _ ⟨e, he, _⟩ _
    cases he
  | cons e rest ih =>
    rintro st v hv hany hex hno
    rw [List.foldl_cons]
    by_cases h1 : v ∈ (pcStep id gen st e).visited
    · have hlook : lookupGen (pcStep id gen st e).gens v = some (gen + 1)
          := by
        rcases pcStep_cases id gen st e with h |
          ⟨nId, g, ht, hn, ⟨ha, h⟩ | ⟨ha, h⟩⟩
        · rw [h] at h1
          exact absurd h1 hv
        · rw [h] at h1 ⊢
          rcases List.mem_append.mp h1 with hc | hc
          · exact absurd hc hv
          · simp only [List.mem_singleton] at hc
            subst hc
            rcases (pcNeighbor_some hn).2 with ⟨hsrc, htgt, hg⟩ |
              ⟨htgt, hsrc, hg⟩
            · subst hg
              obtain ⟨g0, hg0⟩ := (gens_any_iff _ _).mp hany
              simp only [lookupGen_setGen, if_pos rfl, hg0,
                Option.map_some', eq_self_iff_true, if_true]
            · exact absurd ⟨hsrc, htgt⟩
                (hno e (List.mem_cons_self _ _) ht)
        · rw [h] at h1
          rcases List.mem_append.mp h1 with hc | hc
          · exact absurd hc hv
          · simp only [List.mem_singleton] at hc
            subst hc
            exact absurd hany ha
      exact ⟨(pcFold_stable rest id gen _ h1).1,
        ((pcFold_stable rest id gen _ h1).2).trans hlook⟩
    · have hex' : ∃ e2 ∈ rest, e2.type = .parentChild ∧
          e2.sourceId = id ∧ e2.targetId = v := by
        obtain ⟨e0, he0, ht0, hs0, htg0⟩ := hex
        rcases List.mem_cons.mp he0 with rfl | he0'
        · exfalso
          apply h1
          have hn2 : pcNeighbor st id gen e0 = some (v, gen + 1) := by
            unfold pcNeighbor
            rw [if_pos ⟨hs0, by rw [htg0]; exact hv⟩, htg0]
          by_cases ha : st.gens.any (·.1 = v) = true
          · simp [pcStep, ht0, hn2, ha]
          · simp [pcStep, ht0, hn2, ha]
        · exact ⟨e0, he0', ht0, hs0, htg0⟩
      have hany' : (pcStep id gen st e).gens.any (·.1 = v) = true := by
        rcases pcStep_cases id gen st e with h |
          ⟨nId, g, ht, hn, ⟨ha, h⟩ | ⟨ha, h⟩⟩ <;> rw [h]
        · exact hany
        · rw [setGen_any]
          exact hany
        · exact hany
      exact ih _ v h1 hany' hex'
        (fun e2 he2 => hno e2 (List.mem_cons_of_mem _ he2))

theorem pcPass_parent (edges : List GraphEdge) (id : String)
    (gen : Int) : ∀ (st : GenState) (v : String), v ∉ st.visited →
      st.gens.any (·.1 = v) = true →
      (∃ e ∈ edges, e.type = .parentChild ∧ e.targetId = id ∧
        e.sourceId = v) →
      (∀ e ∈ edges, e.type = .parentChild →
        ¬(e.sourceId = id ∧ e.targetId = v)) →
      v ∈ (edges.foldl (pcStep id gen) st).visited ∧
      lookupGen (edges.foldl (pcStep id gen) st).gens v = some (gen - 1)
    := by
  induction edges with
  | nil =>
    rintro st v _ _ ⟨e, he, _⟩ _
    cases he
  | cons e rest ih =>
    rintro st v hv hany hex hno
    rw [List.foldl_cons]
    by_cases h1 : v ∈ (pcStep id gen st e).visited
    · have hlook : lookupGen (pcStep id gen st e).gens v = some (gen - 1)
          := by
        rcases pcStep_cases id gen st e with h |
          ⟨nId, g, ht, hn, ⟨ha, h⟩ | ⟨ha, h⟩⟩
        · rw [h] at h1
          exact absurd h1 hv
        · rw [h] at h1 ⊢
          rcases List.mem_append.mp h1 with hc | hc
          · exact absurd hc hv
          · simp only [List.mem_singleton] at hc
            subst hc
            rcases (pcNeighbor_some hn).2 with ⟨hsrc, htgt, hg⟩ |
              ⟨htgt, hsrc, hg⟩
            · exact absurd ⟨hsrc, htgt⟩
                (hno e (List.mem_cons_self _ _) ht)
            · subst hg
              obtain ⟨g0, hg0⟩ := (gens_any_iff _ _).mp hany
              simp only [lookupGen_setGen, if_pos rfl, hg0,
                Option.map_some', eq_self_iff_true, if_true]
        · rw [h] at h1
          rcases List.mem_append.mp h1 with hc | hc
          · exact absurd hc hv
          · simp only [List.mem_singleton] at hc
            subst hc
            exact absurd hany ha
      exact ⟨(pcFold_stable rest id gen _ h1).1,
        ((pcFold_stable rest id gen _ h1).2).trans hlook⟩
    · have hex' : ∃ e2 ∈ rest, e2.type = .parentChild ∧
          e2.targetId = id ∧ e2.sourceId = v := by
        obtain ⟨e0, he0, ht0, htg0, hs0⟩ := hex
        rcases List.mem_cons.mp he0 with rfl | he0'
        · exfalso
          apply h1
          have hfirst : ¬(e0.sourceId = id ∧ e0.targetId ∉ st.visited)
              := by
            rintro ⟨hsid, _⟩
            have hvid : v = id := hs0.symm.trans hsid
            exact hno e0 (List.mem_cons_self _ _) ht0
              ⟨hsid, htg0.trans hvid.symm⟩
          have hn2 : pcNeighbor st id gen e0 = some (v, gen - 1) := by
            unfold pcNeighbor
            rw [if_neg hfirst, if_pos ⟨htg0, by rw [hs0]; exact hv⟩, hs0]
          by_cases ha : st.gens.any (·.1 = v) = true
          · simp [pcStep, ht0, hn2, ha]
          · simp [pcStep, ht0, hn2, ha]
        · exact ⟨e0, he0', ht0, htg0, hs0⟩
      have hany' : (pcStep id gen st e).gens.any (·.1 = v) = true := by
        rcases pcStep_cases id gen st e with h |
          ⟨nId, g, ht, hn, ⟨ha, h⟩ | ⟨ha, h⟩⟩ <;> rw [h]
        · exact hany
        · rw [setGen_any]
          exact hany
        · exact hany
      exact ih _ v h1 hany' hex'
        (fun e2 he2 => hno e2 (List.mem_cons_of_mem _ he2))

theorem pcStep_untouched {gens0 : List (String × Int)} (id : String)
    (gen : Int) (st : GenState) (e : GraphEdge)
    (h : ∀ w, w ∉ st.visited → lookupGen st.gens w = lookupGen gens0 w)
    : ∀ w, w ∉ (pcStep id gen st e).visited →
      lookupGen (pcStep id gen st e).gens w = lookupGen gens0 w := by
  rcases pcStep_cases id gen st e with h' |
    ⟨nId, g, _, hn, ⟨ha, h'⟩ | ⟨ha, h'⟩⟩ <;> rw [h'] <;> intro w hw
  · exact h w hw
  · have hw1 : w ∉ st.visited := fun hc =>
      hw (List.mem_append_left _ hc)
    have hw2 : ¬(w = nId) := fun hc => hw (List.mem_append_right _
      (by rw [hc]; exact List.mem_singleton_self _))
    rw [lookupGen_setGen, if_neg hw2]
    exact h w hw1
  · exact h w (fun hc => hw (List.mem_append_left _ hc))

theorem ssStep_untouched {gens0 : List (String × Int)} (id : String)
    (gen : Int) (st : GenState) (e : GraphEdge)
    (h : ∀ w, w ∉ st.visited → lookupGen st.gens w = lookupGen gens0 w)
    : ∀ w, w ∉ (ssStep id gen st e).visited →
      lookupGen (ssStep id gen st e).gens w = lookupGen gens0 w := by
  rcases ssStep_cases id gen st e with h' |
    ⟨nId, _, hn, ⟨ha, h'⟩ | ⟨ha, h'⟩⟩ <;> rw [h'] <;> intro w hw
  · exact h w hw
  · have hw1 : w ∉ st.visited := fun hc =>
      hw (List.mem_append_left _ hc)
    have hw2 : ¬(w = nId) := fun hc => hw (List.mem_append_right _
      (by rw [hc]; exact List.mem_singleton_self _))
    rw [lookupGen_setGen, if_neg hw2]
    exact h w hw1
  · exact h w (fun hc => hw (List.mem_append_left _ hc))

theorem processNode_untouched {gens0 : List (String × Int)}
    (edges : List GraphEdge) (id : String) (gen : Int) (st : GenState)
    (h : ∀ w, w ∉ st.visited → lookupGen st.gens w = lookupGen gens0 w)
    : ∀ w, w ∉ (processNode edges id gen st).visited →
      lookupGen (processNode edges id gen st).gens w =
        lookupGen gens0 w := by
  unfold processNode
  apply foldl_preserve (P := fun s => ∀ w, w ∉ s.visited →
    lookupGen s.gens w = lookupGen gens0 w)
    (fun s a _ hs => ssStep_untouched id gen s a hs)
  apply foldl_preserve (P := fun s => ∀ w, w ∉ s.visited →
    lookupGen s.gens w = lookupGen gens0 w)
    (fun s a _ hs => pcStep_untouched id gen s a hs)
  exact h

theorem bfsLoop_untouched {gens0 : List (String × Int)}
    (edges : List GraphEdge) : ∀ (fuel : Nat) (st : GenState),
    (∀ w, w ∉ st.visited → lookupGen st.gens w = lookupGen gens0 w) →
    ∀ w, w ∉ (bfsLoop edges fuel st).visited →
      lookupGen (bfsLoop edges fuel st).gens w = lookupGen gens0 w := by
  intro fuel
  induction fuel with
  | zero => intro st h; exact h
  | succ n ih =>
    intro st h
    rw [bfsLoop]
    cases hq : st.queue with
    | nil => exact h
    | cons qh rest =>
      obtain ⟨qid, qgen⟩ := qh
      dsimp only
      by_cases hg : ({ st with queue := rest } : GenState).gens.any
          (·.1 = qid) = true
      · rw [if_pos hg]
        apply ih
        exact processNode_untouched edges qid qgen _ (fun w hw => h w hw)
      · rw [if_neg hg]
        apply ih
        exact fun w hw => h w hw

theorem processNode_mono {v : String} (edges : List GraphEdge)
    (id : String) (gen : Int) (st : GenState) (hv : v ∈ st.visited) :
    v ∈ (processNode edges id gen st).visited := by
  unfold processNode
  apply foldl_preserve (P := fun s => v ∈ s.visited)
    (fun s a _ hs => ssStep_mono id gen s a hs)
  apply foldl_preserve (P := fun s => v ∈ s.visited)
    (fun s a _ hs => pcStep_mono id gen s a hs)
  exact hv

theorem bfsLoop_mono {v : String} (edges : List GraphEdge) :
    ∀ (fuel : Nat) (st : GenState), v ∈ st.visited →
      v ∈ (bfsLoop edges fuel st).visited := by
  intro fuel
  induction fuel with
  | zero => intro st h; exact h
  | succ n ih =>
    intro st h
    rw [bfsLoop]
    cases hq : st.queue with
    | nil => exact h
    | cons qh rest =>
      obtain ⟨qid, qgen⟩ := qh
      dsimp only
      by_cases hg : ({ st with queue := rest } : GenState).gens.any
          (·.1 = qid) = true
      · rw [if_pos hg]
        exact ih _ (processNode_mono edges qid qgen _ h)
      · rw [if_neg hg]
        exact ih _ h

theorem initialGens_lookup (fd : FamilyData) (v : String)
    (hv : v ∈ idsOf fd) : lookupGen (initialGens fd) v = some 0 := by
  unfold idsOf at hv
  unfold initialGens lookupGen
  rw [List.find?_map]
  cases hf : fd.people.find?
      ((fun (x : String × Int) => decide (x.1 = v)) ∘
        (fun p => (p.id, 0))) with
  | none =>
    exfalso
    obtain ⟨p, hp, hpv⟩ := List.mem_map.mp hv
    have := List.find?_eq_none.mp hf p hp
    simp only [Function.comp, decide_eq_true_eq] at this
    exact this hpv
  | some p0 => simp

theorem initialGens_any (fd : FamilyData) (v : String) :
    (initialGens fd).any (·.1 = v) = true ↔ v ∈ idsOf fd := by
  unfold initialGens idsOf
  simp [List.any_map, Function.comp]

theorem bodies_empty : bodies .empty = 0 := rfl

theorem bodies_mk_true (d : OctreeData) (f : Fin 8 → OctreeNode) :
    bodies (.mk d true f) = ∑ i : Fin 8, bodies (f i) := by
  rw [bodies]
  simp

theorem bodies_mk_false (d : OctreeData) (f : Fin 8 → OctreeNode) :
    bodies (.mk d false f) =
      if 0 ≤ d.bodyIndex then {d.bodyIndex.toNat} else 0 := by
  rw [bodies]
  simp

theorem subnodes_mk_false (d : OctreeData) (f : Fin 8 → OctreeNode) :
    subnodes (.mk d false f) = [.mk d false f] := by
  rw [subnodes]
  simp

theorem mem_subnodes_mk_true {m : OctreeNode} (d : OctreeData)
    (f : Fin 8 → OctreeNode) :
    m ∈ subnodes (.mk d true f) ↔
      m = .mk d true f ∨ ∃ j : Fin 8, m ∈ subnodes (f j) := by
  rw [subnodes]
  simp [List.mem_flatten, List.mem_map, List.mem_finRange]

theorem self_mem_subnodes (d : OctreeData) (hasC : Bool)
    (f : Fin 8 → OctreeNode) :
    (OctreeNode.mk d hasC f) ∈ subnodes (.mk d hasC f) := by
  rw [subnodes]
  exact List.mem_cons_self _ _

theorem getOctant_spec (d : OctreeData) (pos : Vec3) :
    (getOctant d pos).val % 2 = (if pos.x ≥ d.centerX then 1 else 0) ∧
    (getOctant d pos).val / 2 % 2 =
      (if pos.y ≥ d.centerY then 1 else 0) ∧
    (getOctant d pos).val / 4 % 2 =
      (if pos.z ≥ d.centerZ then 1 else 0) := by
  unfold getOctant
  split_ifs <;> norm_num

theorem route_axis (center half p : ℚ) (hp : |p - center| ≤ half) :
    |p - (center + (if p ≥ center then half / 2 else -(half / 2)))| ≤
      half / 2 := by
  rw [abs_le] at hp ⊢
  by_cases hc : p ≥ center
  · rw [if_pos hc]
    constructor <;> linarith
  · rw [if_neg hc]
    push_neg at hc
    constructor <;> linarith

theorem getChildCenter_octant (d : OctreeData) (pos : Vec3) :
    (getChildCenter d (getOctant d pos)).x =
      d.centerX + (if pos.x ≥ d.centerX then d.halfSize / 2
        else -(d.halfSize / 2)) ∧
    (getChildCenter d (getOctant d pos)).y =
      d.centerY + (if pos.y ≥ d.centerY then d.halfSize / 2
        else -(d.halfSize / 2)) ∧
    (getChildCenter d (getOctant d pos)).z =
      d.centerZ + (if pos.z ≥ d.centerZ then d.halfSize / 2
        else -(d.halfSize / 2)) := by
  obtain ⟨hb0, hb1, hb2⟩ := getOctant_spec d pos
  refine ⟨?_, ?_, ?_⟩
  · show d.centerX + (if (getOctant d pos).val % 2 = 1 then
      d.halfSize / 2 else -(d.halfSize / 2)) = _
    rw [hb0]
    by_cases hc : pos.x ≥ d.centerX <;> simp [hc]
  · show d.centerY + (if (getOctant d pos).val / 2 % 2 = 1 then
      d.halfSize / 2 else -(d.halfSize / 2)) = _
    rw [hb1]
    by_cases hc : pos.y ≥ d.centerY <;> simp [hc]
  · show d.centerZ + (if (getOctant d pos).val / 4 % 2 = 1 then
      d.halfSize / 2 else -(d.halfSize / 2)) = _
    rw [hb2]
    by_cases hc : pos.z ≥ d.centerZ <;> simp [hc]

theorem inCube_route (d : OctreeData) (pos : Vec3) (h : inCube d pos) :
    inCube (createNode (getChildCenter d (getOctant d pos)).x
      (getChildCenter d (getOctant d pos)).y
      (getChildCenter d (getOctant d pos)).z (d.halfSize / 2)).data pos
    := by
  obtain ⟨g1, g2, g3⟩ := getChildCenter_octant d pos
  obtain ⟨hx, hy, hz⟩ := h
  refine ⟨?_, ?_, ?_⟩
  · show |pos.x - (getChildCenter d (getOctant d pos)).x| ≤
      d.halfSize / 2
    rw [g1]
    exact route_axis _ _ _ hx
  · show |pos.y - (getChildCenter d (getOctant d pos)).y| ≤
      d.halfSize / 2
    rw [g2]
    exact route_axis _ _ _ hy
  · show |pos.z - (getChildCenter d (getOctant d pos)).z| ≤
      d.halfSize / 2
    rw [g3]
    exact route_axis _ _ _ hz

theorem inCube_congr {d1 d2 : OctreeData}
    (hx : d1.centerX = d2.centerX) (hy : d1.centerY = d2.centerY)
    (hz : d1.centerZ = d2.centerZ) (hh : d1.halfSize = d2.halfSize)
    (p : Vec3) : inCube d2 p → inCube d1 p := by
  unfold inCube
  rw [hx, hy, hz, hh]
  exact id

theorem update_comp {α : Type} (g : OctreeNode → α)
    (f : Fin 8 → OctreeNode) (o : Fin 8) (c : OctreeNode) :
    (fun i => g (Function.update f o c i)) =
      Function.update (fun i => g (f i)) o (g c) := by
  funext i
  by_cases h : i = o
  · subst h
    simp
  · simp [Function.update_noteq h]

theorem sum_update_fin8 {M : Type} [AddCommMonoid M]
    (g : Fin 8 → M) (o : Fin 8) (b : M) :
    ∑ i : Fin 8, Function.update g o b i =
      b + ∑ i ∈ Finset.univ.erase o, g i := by
  rw [Finset.sum_update_of_mem (Finset.mem_univ o), Finset.erase_eq]

theorem sum_erase_fin8 {M : Type} [AddCommMonoid M]
    (g : Fin 8 → M) (o : Fin 8) :
    ∑ i : Fin 8, g i = g o + ∑ i ∈ Finset.univ.erase o, g i :=
  (Finset.add_sum_erase _ _ (Finset.mem_univ o)).symm

theorem dataInv_insert {ps : List Vec3} {d : OctreeData}
    {bs : Multiset ℕ} {i : ℕ} {pos : Vec3}
    (h : dataInv ps d bs) (hpos : ps.getD i default = pos)
    (hcube : inCube d pos) (d' : OctreeData)
    (hcx : d'.centerX = d.centerX) (hcy : d'.centerY = d.centerY)
    (hcz : d'.centerZ = d.centerZ) (hh : d'.halfSize = d.halfSize)
    (hm : d'.mass = d.mass + 1)
    (hx : d'.comX = (d.comX * d.mass + pos.x) / (d.mass + 1))
    (hy : d'.comY = (d.comY * d.mass + pos.y) / (d.mass + 1))
    (hz : d'.comZ = (d.comZ * d.mass + pos.z) / (d.mass + 1))
    (hb : d'.bodyIndex = -1 ∨ 0 ≤ d'.bodyIndex) :
    dataInv ps d' (i ::ₘ bs) := by
  obtain ⟨h1, h2, h3, h4, h5, _⟩ := h
  have hmne : d.mass + 1 ≠ 0 := by
    rw [h1]
    positivity
  refine ⟨?_, ?_, ?_, ?_, ?_, hb⟩
  · rw [hm, h1]
    push_cast [Multiset.card_cons]
    ring
  · rw [hm, hx, mul_div_cancel₀ _ hmne, Multiset.map_cons,
      Multiset.sum_cons, ← h2, hpos]
    ring
  · rw [hm, hy, mul_div_cancel₀ _ hmne, Multiset.map_cons,
      Multiset.sum_cons, ← h3, hpos]
    ring
  · rw [hm, hz, mul_div_cancel₀ _ hmne, Multiset.map_cons,
      Multiset.sum_cons, ← h4, hpos]
    ring
  · intro j hj
    rcases Multiset.mem_cons.mp hj with rfl | hj'
    · rw [hpos]
      exact inCube_congr hcx hcy hcz hh _ hcube
    · exact inCube_congr hcx hcy hcz hh _ (h5 j hj')

theorem bodies_createNode (a b c h : ℚ) :
    bodies (createNode a b c h) = 0 := by
  rw [createNode, bodies]
  norm_num

theorem treeInv_createNode (ps : List Vec3) (a b c h : ℚ) :
    treeInv ps (createNode a b c h) := by
  intro m hm
  rw [createNode, subnodes_mk_false] at hm
  simp only [List.mem_singleton] at hm
  subst hm
  constructor
  · refine ⟨?_, ?_, ?_, ?_, ?_, Or.inl rfl⟩ <;>
      simp [localInv, dataInv, createNode, OctreeNode.data,
        bodies_mk_false]
  · intro hc
    cases hc

theorem treeInv_child {ps : List Vec3} {d : OctreeData}
    {f : Fin 8 → OctreeNode} (hinv : treeInv ps (.mk d true f))
    (j : Fin 8) : treeInv ps (f j) := by
  intro m hm
  exact hinv m ((mem_subnodes_mk_true _ _).mpr (Or.inr ⟨j, hm⟩))

theorem treeInv_head {ps : List Vec3} {d : OctreeData} {hasC : Bool}
    {f : Fin 8 → OctreeNode} (hinv : treeInv ps (.mk d hasC f)) :
    localInv ps (.mk d hasC f) ∧ nodeGeom (.mk d hasC f) :=
  hinv _ (self_mem_subnodes d hasC f)

theorem treeInv_mk {ps : List Vec3} {d : OctreeData} {hasC : Bool}
    {f : Fin 8 → OctreeNode}
    (hl : localInv ps (.mk d hasC f)) (hg : nodeGeom (.mk d hasC f))
    (hch : hasC = true → ∀ j, treeInv ps (f j)) :
    treeInv ps (.mk d hasC f) := by
  intro m hm
  cases hasC with
  | false =>
    rw [subnodes_mk_false] at hm
    simp only [List.mem_singleton] at hm
    subst hm
    exact ⟨hl, hg⟩
  | true =>
    rcases (mem_subnodes_mk_true _ _).mp hm with rfl | ⟨j, hj⟩
    · exact ⟨hl, hg⟩
    · exact hch rfl j m hj

theorem sum_bodies_update (f : Fin 8 → OctreeNode) (o : Fin 8)
    (c : OctreeNode) :
    ∑ i : Fin 8, bodies (Function.update f o c i) =
      bodies c + ∑ i ∈ Finset.univ.erase o, bodies (f i) := by
  have hcomp := update_comp bodies f o c
  calc ∑ i : Fin 8, bodies (Function.update f o c i)
      = ∑ i : Fin 8,
          Function.update (fun i => bodies (f i)) o (bodies c) i :=
        Finset.sum_congr rfl (fun i _ => congrFun hcomp i)
    _ = bodies c + ∑ i ∈ Finset.univ.erase o, bodies (f i) :=
        sum_update_fin8 _ _ _

theorem childFor_empty (f : Fin 8 → OctreeNode) (nd : OctreeData)
    (o : Fin 8) (h : f o = .empty) :
    childFor f nd o =
      createNode (getChildCenter nd o).x (getChildCenter nd o).y
        (getChildCenter nd o).z (nd.halfSize / 2) := by
  unfold childFor
  rw [h]

theorem childFor_ne (f : Fin 8 → OctreeNode) (nd : OctreeData)
    (o : Fin 8) (h : f o ≠ .empty) : childFor f nd o = f o := by
  unfold childFor
  cases hfo : f o with
  | empty => exact absurd hfo h
  | mk d b g => rfl

theorem treeInv_empty (ps : List Vec3) : treeInv ps .empty := by
  intro m hm
  simp [subnodes] at hm

theorem childFor_props (ps : List Vec3) (f : Fin 8 → OctreeNode)
    (nd : OctreeData) (pos : Vec3)
    (hg : ∀ j, childGeom nd j (f j))
    (ht : ∀ j, treeInv ps (f j))
    (hcube : inCube nd pos) :
    treeInv ps (childFor f nd (getOctant nd pos)) ∧
    inCube (childFor f nd (getOctant nd pos)).data pos ∧
    bodies (childFor f nd (getOctant nd pos)) =
      bodies (f (getOctant nd pos)) ∧
    (childFor f nd (getOctant nd pos)).data.centerX =
      (getChildCenter nd (getOctant nd pos)).x ∧
    (childFor f nd (getOctant nd pos)).data.centerY =
      (getChildCenter nd (getOctant nd pos)).y ∧
    (childFor f nd (getOctant nd pos)).data.centerZ =
      (getChildCenter nd (getOctant nd pos)).z ∧
    (childFor f nd (getOctant nd pos)).data.halfSize =
      nd.halfSize / 2 := by
  by_cases hfo : f (getOctant nd pos) = OctreeNode.empty
  · rw [childFor_empty f nd (getOctant nd pos) hfo, hfo]
    exact ⟨treeInv_createNode ps _ _ _ _, inCube_route nd pos hcube,
      by rw [bodies_createNode, bodies_empty], rfl, rfl, rfl, rfl⟩
  · rw [childFor_ne f nd (getOctant nd pos) hfo]
    rcases hg (getOctant nd pos) with hem | ⟨g1, g2, g3, g4⟩
    · exact absurd hem hfo
    · exact ⟨ht (getOctant nd pos),
        inCube_congr g1 g2 g3 g4 pos (inCube_route nd pos hcube),
        rfl, g1, g2, g3, g4⟩

theorem insertBody_spec (ps : List Vec3) :
    ∀ (fuel : Nat) (n : OctreeNode) (i : Nat) (pos : Vec3)
      (n' : OctreeNode),
      insertBody fuel n i pos ps = some n' →
      treeInv ps n →
      ps.getD i default = pos →
      inCube n.data pos →
      treeInv ps n' ∧
      bodies n' = i ::ₘ bodies n ∧
      n'.data.centerX = n.data.centerX ∧
      n'.data.centerY = n.data.centerY ∧
      n'.data.centerZ = n.data.centerZ ∧
      n'.data.halfSize = n.data.halfSize ∧
      n' ≠ .empty := by
  intro fuel
  induction fuel with
  | zero =>
    intro n i pos n' h hinv hpos hcube
    simp only [insertBody] at h
    exact Option.noConfusion h
  | succ fuel ih =>
    intro n i pos n' h hinv hpos hcube
    cases n with
    | empty =>
      simp only [insertBody] at h
      exact Option.noConfusion h
    | mk nd hasC f =>
      have hself : dataInv ps (OctreeNode.mk nd hasC f).data
          (bodies (OctreeNode.mk nd hasC f)) := (treeInv_head hinv).1
      have hgeomN : nodeGeom (OctreeNode.mk nd hasC f) :=
        (treeInv_head hinv).2
      cases hasC with
      | true =>
        simp only [insertBody, eq_self_iff_true, if_true] at h
        cases hrec : insertBody fuel (childFor f nd (getOctant nd pos))
            i pos ps with
        | none =>
          rw [hrec] at h
          simp at h
        | some child' =>
          rw [hrec] at h
          simp only [] at h
          injection h with h2
          subst h2
          have hgeomF : ∀ j, childGeom nd j (f j) := hgeomN rfl
          have htreeF : ∀ j, treeInv ps (f j) :=
            fun j => treeInv_child hinv j
          obtain ⟨q1, q2, q3, q4, q5, q6, q7⟩ :=
            childFor_props ps f nd pos hgeomF htreeF hcube
          obtain ⟨s1, s2, s3x, s3y, s3z, s3h, sne⟩ :=
            ih (childFor f nd (getOctant nd pos)) i pos child' hrec q1
              hpos q2
          have hBodies : bodies (OctreeNode.mk (updData nd pos) true
              (Function.update f (getOctant nd pos) child')) =
              i ::ₘ bodies (OctreeNode.mk nd true f) := by
            rw [bodies_mk_true, sum_bodies_update, s2, q3,
              bodies_mk_true,
              sum_erase_fin8 (fun j => bodies (f j)) (getOctant nd pos),
              Multiset.cons_add]
          refine ⟨?_, hBodies, rfl, rfl, rfl, rfl,
            fun hc => OctreeNode.noConfusion hc⟩
          refine treeInv_mk ?_ ?_ ?_
          · show dataInv ps (updData nd pos)
              (bodies (OctreeNode.mk (updData nd pos) true
                (Function.update f (getOctant nd pos) child')))
            rw [hBodies]
            exact dataInv_insert hself hpos hcube _ rfl rfl rfl rfl rfl
              rfl rfl rfl hself.2.2.2.2.2
          · intro _ j
            by_cases hj : j = getOctant nd pos
            · subst hj
              rw [Function.update_same]
              exact Or.inr ⟨s3x.trans q4, s3y.trans q5, s3z.trans q6,
                s3h.trans q7⟩
            · rw [Function.update_noteq hj]
              exact hgeomF j
          · intro _ j
            by_cases hj : j = getOctant nd pos
            · subst hj
              rw [Function.update_same]
              exact s1
            · rw [Function.update_noteq hj]
              exact htreeF j
      | false =>
        simp only [insertBody, Bool.false_eq_true, if_false] at h
        by_cases hb : nd.bodyIndex = -1
        · rw [if_pos hb] at h
          injection h with h2
          subst h2
          have hB0 : bodies (OctreeNode.mk nd false f) = 0 := by
            rw [bodies_mk_false, if_neg (by rw [hb]; decide)]
          have hBL : bodies (OctreeNode.mk
              { updData nd pos with bodyIndex := (i : Int) } false f) =
              i ::ₘ (0 : Multiset ℕ) := by
            rw [bodies_mk_false, if_pos (Int.natCast_nonneg i)]
            simp
          have hBodies : bodies (OctreeNode.mk
              { updData nd pos with bodyIndex := (i : Int) } false f) =
              i ::ₘ bodies (OctreeNode.mk nd false f) := by
            rw [hBL, hB0]
          refine ⟨?_, hBodies, rfl, rfl, rfl, rfl,
            fun hc => OctreeNode.noConfusion hc⟩
          refine treeInv_mk ?_ ?_ ?_
          · show dataInv ps
              { updData nd pos with bodyIndex := (i : Int) }
              (bodies (OctreeNode.mk
                { updData nd pos with bodyIndex := (i : Int) }
                false f))
            rw [hBodies]
            exact dataInv_insert hself hpos hcube _ rfl rfl rfl rfl rfl
              rfl rfl rfl (Or.inr (Int.natCast_nonneg i))
          · intro hc
            exact Bool.noConfusion hc
          · intro hc
            exact Bool.noConfusion hc
        · rw [if_neg hb] at h
          have hge : 0 ≤ nd.bodyIndex := by
            rcases hself.2.2.2.2.2 with h1 | h1
            · exact absurd h1 hb
            · exact h1
          set ei := nd.bodyIndex.toNat with hei
          set epos := ps.getD ei default with hepos
          set eo := getOctant nd epos with heo
          cases hrec1 : insertBody fuel
              (createNode (getChildCenter nd eo).x
                (getChildCenter nd eo).y (getChildCenter nd eo).z
                (nd.halfSize / 2)) ei epos ps with
          | none =>
            rw [hrec1] at h
            simp at h
          | some reChild =>
            rw [hrec1] at h
            simp only [] at h
            cases hrec2 : insertBody fuel
                (childFor (Function.update noChildren eo reChild) nd
                  (getOctant nd pos)) i pos ps with
            | none =>
              rw [hrec2] at h
              simp at h
            | some child' =>
              rw [hrec2] at h
              simp only [] at h
              injection h with h2
              subst h2
              set f1 := Function.update noChildren eo reChild with hf1
              have hB0 : bodies (OctreeNode.mk nd false f) = {ei} := by
                rw [bodies_mk_false, if_pos hge, ← hei]
              have hecube : inCube nd epos := by
                have h6 := hself.2.2.2.2.1 ei (by
                  rw [hB0]
                  exact Multiset.mem_singleton_self ei)
                rw [← hepos] at h6
                exact h6
              have hcubeE : inCube (createNode (getChildCenter nd eo).x
                  (getChildCenter nd eo).y (getChildCenter nd eo).z
                  (nd.halfSize / 2)).data epos := by
                rw [heo]
                exact inCube_route nd epos hecube
              obtain ⟨r1, r2, r3x, r3y, r3z, r3h, rne⟩ :=
                ih (createNode (getChildCenter nd eo).x
                    (getChildCenter nd eo).y (getChildCenter nd eo).z
                    (nd.halfSize / 2)) ei epos reChild hrec1
                  (treeInv_createNode ps _ _ _ _) hepos.symm hcubeE
              have hgeomF : ∀ j, childGeom nd j (f1 j) := by
                intro j
                by_cases hj : j = eo
                · subst hj
                  rw [hf1, Function.update_same]
                  exact Or.inr ⟨r3x, r3y, r3z, r3h⟩
                · rw [hf1, Function.update_noteq hj]
                  exact Or.inl rfl
              have htreeF : ∀ j, treeInv ps (f1 j) := by
                intro j
                by_cases hj : j = eo
                · subst hj
                  rw [hf1, Function.update_same]
                  exact r1
                · rw [hf1, Function.update_noteq hj]
                  exact treeInv_empty ps
              obtain ⟨q1, q2, q3, q4, q5, q6, q7⟩ :=
                childFor_props ps f1 nd pos hgeomF htreeF hcube
              obtain ⟨s1, s2, s3x, s3y, s3z, s3h, sne⟩ :=
                ih (childFor f1 nd (getOctant nd pos)) i pos child'
                  hrec2 q1 hpos q2
              have hsum1 : ∑ j : Fin 8, bodies (f1 j) =
                  bodies (OctreeNode.mk nd false f) := by
                rw [hf1, sum_bodies_update, r2, bodies_createNode, hB0]
                simp [noChildren, bodies_empty]
              have hBodies : bodies (OctreeNode.mk
                  { updData nd pos with bodyIndex := -1 } true
                  (Function.update f1 (getOctant nd pos) child')) =
                  i ::ₘ bodies (OctreeNode.mk nd false f) := by
                rw [bodies_mk_true, sum_bodies_update, s2, q3,
                  Multiset.cons_add,
                  ← sum_erase_fin8 (fun j => bodies (f1 j))
                    (getOctant nd pos), hsum1]
              refine ⟨?_, hBodies, rfl, rfl, rfl, rfl,
                fun hc => OctreeNode.noConfusion hc⟩
              refine treeInv_mk ?_ ?_ ?_
              · show dataInv ps
                  { updData nd pos with bodyIndex := -1 }
                  (bodies (OctreeNode.mk
                    { updData nd pos with bodyIndex := -1 } true
                    (Function.update f1 (getOctant nd pos) child')))
                rw [hBodies]
                exact dataInv_insert hself hpos hcube _ rfl rfl rfl rfl
                  rfl rfl rfl rfl (Or.inl rfl)
              · intro _ j
                by_cases hj : j = getOctant nd pos
                · subst hj
                  rw [Function.update_same]
                  exact Or.inr ⟨s3x.trans q4, s3y.trans q5,
                    s3z.trans q6, s3h.trans q7⟩
                · rw [Function.update_noteq hj]
                  exact hgeomF j
              · intro _ j
                by_cases hj : j = getOctant nd pos
                · subst hj
                  rw [Function.update_same]
                  exact s1
                · rw [Function.update_noteq hj]
                  exact htreeF j

/-- C1, counterexample: when `S` is declared both child and spouse of
the focal `F`, the parent-child pass claims `S` first, so the spouses
`F` and `S` end at generations 0 and 1 — spouses do not always share a
generation. -/
theorem c1_counterexample :
    (∃ e ∈ (familyGraph c1CexData).edges, e.type = .spouse ∧
      e.sourceId = "F" ∧ e.targetId = "S") ∧
    generationOf (familyGraph c1CexData) "F" = some 0 ∧
    generationOf (familyGraph c1CexData) "S" = some 1 :=
  ⟨by decide, by decide, by decide⟩

/-- C1, amended: the BFS propagation assigns `g+1` to an unvisited
child, `g-1` to an unvisited parent and `g` to an unvisited
spouse/sibling; the focal→parent→grandparent chain gets 0, −1, −2 and
focal→child→grandchild gets 0, 1, 2; a spouse or sibling that is still
unvisited when the node's spouse/sibling pass runs receives that
node's generation (a neighbor already claimed by the parent-child pass
may instead carry the ±1 offset). -/
theorem c1_generation_propagation :
    (generationOf (familyGraph c1ChainUp) "F" = some 0 ∧
     generationOf (familyGraph c1ChainUp) "P" = some (-1) ∧
     generationOf (familyGraph c1ChainUp) "G" = some (-2)) ∧
    (generationOf (familyGraph c1ChainDown) "F" = some 0 ∧
     generationOf (familyGraph c1ChainDown) "C" = some 1 ∧
     generationOf (familyGraph c1ChainDown) "GC" = some 2) ∧
    (∀ (edges : List GraphEdge) (id : String) (gen : Int)
       (st : GenState) (v : String),
      v ∉ st.visited → st.gens.any (·.1 = v) = true →
      v ∈ (edges.foldl (ssStep id gen) st).visited →
      lookupGen (edges.foldl (ssStep id gen) st).gens v = some gen) ∧
    (∀ (edges : List GraphEdge) (id : String) (gen : Int)
       (st : GenState) (v : String),
      v ∉ st.visited → st.gens.any (·.1 = v) = true →
      (∃ e ∈ edges, e.type = .parentChild ∧ e.sourceId = id ∧
        e.targetId = v) →
      (∀ e ∈ edges, e.type = .parentChild →
        ¬(e.sourceId = v ∧ e.targetId = id)) →
      v ∈ (edges.foldl (pcStep id gen) st).visited ∧
      lookupGen (edges.foldl (pcStep id gen) st).gens v =
        some (gen + 1)) ∧
    (∀ (edges : List GraphEdge) (id : String) (gen : Int)
       (st : GenState) (v : String),
      v ∉ st.visited → st.gens.any (·.1 = v) = true →
      (∃ e ∈ edges, e.type = .parentChild ∧ e.targetId = id ∧
        e.sourceId = v) →
      (∀ e ∈ edges, e.type = .parentChild →
        ¬(e.sourceId = id ∧ e.targetId = v)) →
      v ∈ (edges.foldl (pcStep id gen) st).visited ∧
      lookupGen (edges.foldl (pcStep id gen) st).gens v =
        some (gen - 1)) :=
  ⟨⟨by decide, by decide, by decide⟩,
   ⟨by decide, by decide, by decide⟩,
   fun edges id gen st v => ssPass_new edges id gen st v,
   fun edges id gen st v => pcPass_child edges id gen st v,
   fun edges id gen st v => pcPass_parent edges id gen st v⟩

/-- C1, witness: the spouse-pass rule applied to a concrete one-edge
state assigns the focal generation to the spouse. -/
theorem c1_generation_propagation_witness :
    ("S" ∉ ({ gens := [("F", 0), ("S", 0)], visited := ["F"]
              queue := [] } : GenState).visited) ∧
    (([{ id := "F-S-spouse", sourceId := "F", targetId := "S"
         type := EdgeType.spouse, strength := 8/10 }].foldl
        (ssStep "F" 0)
        { gens := [("F", 0), ("S", 0)], visited := ["F"]
          queue := [] }).visited = ["F", "S"]) ∧
    lookupGen
      (([{ id := "F-S-spouse", sourceId := "F", targetId := "S"
           type := EdgeType.spouse, strength := 8/10 }].foldl
          (ssStep "F" 0)
          { gens := [("F", 0), ("S", 0)], visited := ["F"]
            queue := [] }).gens) "S" = some 0 := by
  refine ⟨by decide, by decide, ?_⟩
  exact c1_generation_propagation.2.2.1 _ "F" 0 _ "S"
    (by decide) (by decide) (by decide)

/-- C8: when the focal identifier resolves to no node the propagation
is a no-op and every node keeps the placeholder generation 0; an empty
dataset yields an empty generation table; and any node the traversal
never visits keeps generation 0. -/
theorem c8_missing_focal_no_op :
    (∀ fd : FamilyData, (familyGraph fd).centeredId ∉ idsOf fd →
      ∀ v ∈ idsOf fd, generationOf (familyGraph fd) v = some 0) ∧
    (∀ fd : FamilyData, fd.people = [] → (familyGraph fd).gens = []) ∧
    (∀ fd : FamilyData, ∀ v ∈ idsOf fd,
      v ∉ (familyGraph fd).visited →
      generationOf (familyGraph fd) v = some 0) := by
  have hgen : ∀ (fd : FamilyData) (edges : List GraphEdge)
      (cid v : String), v ∈ idsOf fd →
      v ∉ (calculateGenerations fd edges cid).visited →
      lookupGen (calculateGenerations fd edges cid).gens v = some 0 := by
    intro fd edges cid v hv hnv
    unfold calculateGenerations at hnv ⊢
    by_cases hc : (initialGens fd).any (·.1 = cid) = true
    · rw [if_pos hc] at hnv ⊢
      have hres := @bfsLoop_untouched
        (setGen (initialGens fd) cid 0) edges
        (fd.people.length + 1)
        { gens := setGen (initialGens fd) cid 0, visited := [cid]
          queue := [(cid, 0)] }
        (fun w _ => rfl) v hnv
      have hvc : ¬(v = cid) := by
        intro hc2
        apply hnv
        apply bfsLoop_mono
        rw [hc2]
        exact List.mem_singleton_self _
      rw [hres, lookupGen_setGen, if_neg hvc]
      exact initialGens_lookup fd v hv
    · rw [if_neg hc] at hnv ⊢
      exact initialGens_lookup fd v hv
  refine ⟨?_, ?_, ?_⟩
  · intro fd hfocal v hv
    have hc : ¬((initialGens fd).any
        (·.1 = determineCenteredPerson fd) = true) := by
      rw [initialGens_any]
      exact hfocal
    have hnv : v ∉ (calculateGenerations fd (graphEdges fd)
        (determineCenteredPerson fd)).visited := by
      unfold calculateGenerations
      rw [if_neg hc]
      exact List.not_mem_nil v
    exact hgen fd _ _ v hv hnv
  · intro fd hp
    show (calculateGenerations fd (graphEdges fd)
      (determineCenteredPerson fd)).gens = []
    unfold calculateGenerations
    have h0 : initialGens fd = [] := by
      unfold initialGens
      rw [hp]
      rfl
    rw [h0]
    rfl
  · intro fd v hv hnv
    exact hgen fd _ _ v hv hnv

/-- C8, witness: a dataset whose meta focal id `"Z"` resolves to no
node leaves its single person `"A"` at generation 0. -/
theorem c8_missing_focal_no_op_witness :
    (familyGraph c8MissingFocalData).centeredId ∉
      idsOf c8MissingFocalData ∧
    "A" ∈ idsOf c8MissingFocalData ∧
    generationOf (familyGraph c8MissingFocalData) "A" = some 0 :=
  ⟨by decide, by decide,
    c8_missing_focal_no_op.1 _ (by decide) "A" (by decide)⟩

/-- C4, counterexample: with an explicit meta focal identifier and an
empty people list, `determineCenteredPerson` returns the meta
identifier, not the empty string, so the claim's final clause fails as
stated. -/
theorem c4_counterexample :
    determineCenteredPerson
      { people := [], meta := some { centeredPersonId := some "x" } }
      = "x" ∧ ("x" : String) ≠ "" := by
  exact ⟨rfl, by decide⟩

/-- C4, amended: the focal identifier follows the priority order with
first match winning — a nonempty explicit meta identifier; else the
first generation-0 "complete" person; else the first generation-0
person; else the first person; and an empty people list resolves to
the empty string when no nonempty explicit meta identifier is
supplied. -/
theorem c4_focal_priority (fd : FamilyData) :
    (∀ c, metaFocal fd = some c → c ≠ "" →
      determineCenteredPerson fd = c) ∧
    ((metaFocal fd = none ∨ metaFocal fd = some "") →
      (∀ p, fd.people.find? isGen0Complete = some p →
        determineCenteredPerson fd = p.id) ∧
      (fd.people.find? isGen0Complete = none →
        ∀ q, fd.people.find? isGen0 = some q →
          determineCenteredPerson fd = q.id) ∧
      (fd.people.find? isGen0Complete = none →
        fd.people.find? isGen0 = none →
        ∀ r, fd.people.head? = some r →
          determineCenteredPerson fd = r.id) ∧
      (fd.people = [] → determineCenteredPerson fd = "")) := by
  have hfb : ∀ h : metaFocal fd = none ∨ metaFocal fd = some "",
      determineCenteredPerson fd = determineFallback fd := by
    rintro (h | h) <;> simp [determineCenteredPerson, h]
  refine ⟨?_, fun hm => ⟨?_, ?_, ?_, ?_⟩⟩
  · intro c hc hne
    simp [determineCenteredPerson, hc, hne]
  · intro p hp
    rw [hfb hm]
    simp [determineFallback, hp]
  · intro h1 q hq
    rw [hfb hm]
    simp [determineFallback, h1, hq]
  · intro h1 h2 r hr
    rw [hfb hm]
    simp [determineFallback, h1, h2, hr]
  · intro hp
    rw [hfb hm]
    simp [determineFallback, hp]

/-- C4, witness: on a dataset with no meta and a single generation-0
complete person, the priority theorem yields that person's id. -/
theorem c4_focal_priority_witness :
    metaFocal { people := [{ id := "B", generation := some 0,
                             status := some "complete" }] } = none ∧
    determineCenteredPerson
      { people := [{ id := "B", generation := some 0,
                     status := some "complete" }] } = "B" := by
  refine ⟨by decide, ?_⟩
  exact ((c4_focal_priority _).2 (Or.inl (by decide))).1
    { id := "B", generation := some 0, status := some "complete" }
    (by decide)

/-- C5: the biography weight is `sqrt(min(trimmedLength, 1000)/1000)`,
exactly 0 for a missing biography or one whose trimmed text is empty,
exactly 1 for trimmed length at least 1000, and strictly monotone in
the trimmed length below 1000. -/
theorem c5_biography_weight :
    calculateBiographyWeight none = 0 ∧
    (∀ s : String, calculateBiographyWeight (some s) =
      Real.sqrt (((min (trimmedLength s : ℚ) 1000) / 1000 : ℚ))) ∧
    (∀ s : String, trimmedLength s = 0 →
      calculateBiographyWeight (some s) = 0) ∧
    (∀ s : String, 1000 ≤ trimmedLength s →
      calculateBiographyWeight (some s) = 1) ∧
    (∀ a b : String, trimmedLength a < trimmedLength b →
      trimmedLength b ≤ 1000 →
      calculateBiographyWeight (some a) <
        calculateBiographyWeight (some b)) := by
  have hformula : ∀ s : String, calculateBiographyWeight (some s) =
      Real.sqrt (((min (trimmedLength s : ℚ) 1000) / 1000 : ℚ)) := by
    intro s
    by_cases hs : s = ""
    · subst hs
      have h0 : trimmedLength "" = 0 := by decide
      simp [calculateBiographyWeight, h0]
    · by_cases hl : trimmedLength s = 0
      · simp [calculateBiographyWeight, hs, hl]
      · simp [calculateBiographyWeight, hs, hl]
  refine ⟨rfl, hformula, ?_, ?_, ?_⟩
  · intro s hl
    simp [hformula s, hl]
  · intro s hl
    rw [hformula s]
    have : min ((trimmedLength s : ℚ)) 1000 = 1000 :=
      min_eq_right (by exact_mod_cast hl)
    rw [this]
    norm_num
  · intro a b hab hb
    rw [hformula a, hformula b]
    have ha' : min ((trimmedLength a : ℚ)) 1000 = (trimmedLength a : ℚ) :=
      min_eq_left (by exact_mod_cast (le_of_lt (lt_of_lt_of_le hab hb)))
    have hb' : min ((trimmedLength b : ℚ)) 1000 = (trimmedLength b : ℚ) :=
      min_eq_left (by exact_mod_cast hb)
    rw [ha', hb']
    apply Real.sqrt_lt_sqrt
    · positivity
    · have : (trimmedLength a : ℚ) < (trimmedLength b : ℚ) := by
        exact_mod_cast hab
      have h2 : ((trimmedLength a : ℚ) / 1000 : ℚ) <
          ((trimmedLength b : ℚ) / 1000 : ℚ) := by
        exact div_lt_div_of_pos_right this (by norm_num)
      exact_mod_cast h2

/-- C5, witness: instantiating the monotonicity part at trimmed
lengths 2 < 3. -/
theorem c5_biography_weight_witness :
    trimmedLength "ab" < trimmedLength "abc" ∧
    trimmedLength "abc" ≤ 1000 ∧
    calculateBiographyWeight (some "ab") <
      calculateBiographyWeight (some "abc") :=
  ⟨by decide, by decide,
    c5_biography_weight.2.2.2.2 "ab" "abc" (by decide) (by decide)⟩


theorem foldl_min_le_init {α : Type} (g : α → ℚ) :
    ∀ (l : List α) (a : ℚ),
      l.foldl (fun m q => min m (g q)) a ≤ a := by
  intro l
  induction l with
  | nil => intro a; exact le_refl a
  | cons q t ihl =>
    intro a
    exact le_trans (ihl (min a (g q))) (min_le_left _ _)

theorem foldl_min_le {α : Type} (g : α → ℚ) :
    ∀ (l : List α) (a : ℚ) (p : α), p ∈ l →
      l.foldl (fun m q => min m (g q)) a ≤ g p := by
  intro l
  induction l with
  | nil =>
    intro a p hp
    cases hp
  | cons q t ihl =>
    intro a p hp
    rcases List.mem_cons.mp hp with rfl | hp2
    · exact le_trans (foldl_min_le_init g t (min a (g p)))
        (min_le_right _ _)
    · exact ihl (min a (g q)) p hp2

theorem le_foldl_max_init {α : Type} (g : α → ℚ) :
    ∀ (l : List α) (a : ℚ),
      a ≤ l.foldl (fun m q => max m (g q)) a := by
  intro l
  induction l with
  | nil => intro a; exact le_refl a
  | cons q t ihl =>
    intro a
    exact le_trans (le_max_left _ _) (ihl (max a (g q)))

theorem le_foldl_max {α : Type} (g : α → ℚ) :
    ∀ (l : List α) (a : ℚ) (p : α), p ∈ l →
      g p ≤ l.foldl (fun m q => max m (g q)) a := by
  intro l
  induction l with
  | nil =>
    intro a p hp
    cases hp
  | cons q t ihl =>
    intro a p hp
    rcases List.mem_cons.mp hp with rfl | hp2
    · exact le_trans (le_max_right _ _)
        (le_foldl_max_init g t (max a (g p)))
    · exact ihl (max a (g q)) p hp2

theorem axis_bound {lo hi v half : ℚ} (h1 : lo ≤ v) (h2 : v ≤ hi)
    (h3 : (hi - lo + 10 * 2) / 2 ≤ half) :
    |v - (lo + hi) / 2| ≤ half := by
  rw [abs_le]
  constructor <;> linarith

theorem rootCube_centerX (p0 : Vec3) (ps : List Vec3) :
    (rootCube p0 ps).data.centerX =
      (ps.foldl (fun m p => min m p.x) p0.x +
        ps.foldl (fun m p => max m p.x) p0.x) / 2 := rfl

theorem rootCube_centerY (p0 : Vec3) (ps : List Vec3) :
    (rootCube p0 ps).data.centerY =
      (ps.foldl (fun m p => min m p.y) p0.y +
        ps.foldl (fun m p => max m p.y) p0.y) / 2 := rfl

theorem rootCube_centerZ (p0 : Vec3) (ps : List Vec3) :
    (rootCube p0 ps).data.centerZ =
      (ps.foldl (fun m p => min m p.z) p0.z +
        ps.foldl (fun m p => max m p.z) p0.z) / 2 := rfl

theorem rootCube_halfSize (p0 : Vec3) (ps : List Vec3) :
    (rootCube p0 ps).data.halfSize =
      max (max
          (ps.foldl (fun m p => max m p.x) p0.x -
            ps.foldl (fun m p => min m p.x) p0.x + 10 * 2)
          (ps.foldl (fun m p => max m p.y) p0.y -
            ps.foldl (fun m p => min m p.y) p0.y + 10 * 2))
        (ps.foldl (fun m p => max m p.z) p0.z -
          ps.foldl (fun m p => min m p.z) p0.z + 10 * 2) / 2 := rfl

theorem rootCube_contains (p0 : Vec3) (ps : List Vec3) (p : Vec3)
    (hp : p ∈ ps) : inCube (rootCube p0 ps).data p := by
  have h1x := foldl_min_le (fun v => v.x) ps p0.x p hp
  have h2x := le_foldl_max (fun v => v.x) ps p0.x p hp
  have h1y := foldl_min_le (fun v => v.y) ps p0.y p hp
  have h2y := le_foldl_max (fun v => v.y) ps p0.y p hp
  have h1z := foldl_min_le (fun v => v.z) ps p0.z p hp
  have h2z := le_foldl_max (fun v => v.z) ps p0.z p hp
  refine ⟨?_, ?_, ?_⟩
  · rw [rootCube_centerX, rootCube_halfSize]
    refine axis_bound h1x h2x ?_
    have hx : ps.foldl (fun m q => max m q.x) p0.x -
        ps.foldl (fun m q => min m q.x) p0.x + 10 * 2 ≤
        max (max
          (ps.foldl (fun m q => max m q.x) p0.x -
            ps.foldl (fun m q => min m q.x) p0.x + 10 * 2)
          (ps.foldl (fun m q => max m q.y) p0.y -
            ps.foldl (fun m q => min m q.y) p0.y + 10 * 2))
        (ps.foldl (fun m q => max m q.z) p0.z -
          ps.foldl (fun m q => min m q.z) p0.z + 10 * 2) :=
      le_trans (le_max_left _ _) (le_max_left _ _)
    exact (div_le_div_iff_of_pos_right (by norm_num)).mpr hx
  · rw [rootCube_centerY, rootCube_halfSize]
    refine axis_bound h1y h2y ?_
    have hy : ps.foldl (fun m q => max m q.y) p0.y -
        ps.foldl (fun m q => min m q.y) p0.y + 10 * 2 ≤
        max (max
          (ps.foldl (fun m q => max m q.x) p0.x -
            ps.foldl (fun m q => min m q.x) p0.x + 10 * 2)
          (ps.foldl (fun m q => max m q.y) p0.y -
            ps.foldl (fun m q => min m q.y) p0.y + 10 * 2))
        (ps.foldl (fun m q => max m q.z) p0.z -
          ps.foldl (fun m q => min m q.z) p0.z + 10 * 2) :=
      le_trans (le_max_right _ _) (le_max_left _ _)
    exact (div_le_div_iff_of_pos_right (by norm_num)).mpr hy
  · rw [rootCube_centerZ, rootCube_halfSize]
    refine axis_bound h1z h2z ?_
    have hz : ps.foldl (fun m q => max m q.z) p0.z -
        ps.foldl (fun m q => min m q.z) p0.z + 10 * 2 ≤
        max (max
          (ps.foldl (fun m q => max m q.x) p0.x -
            ps.foldl (fun m q => min m q.x) p0.x + 10 * 2)
          (ps.foldl (fun m q => max m q.y) p0.y -
            ps.foldl (fun m q => min m q.y) p0.y + 10 * 2))
        (ps.foldl (fun m q => max m q.z) p0.z -
          ps.foldl (fun m q => min m q.z) p0.z + 10 * 2) :=
      le_max_right _ _
    exact (div_le_div_iff_of_pos_right (by norm_num)).mpr hz

theorem bind_fold_none (fuel : Nat) (ps : List Vec3) :
    ∀ l : List Nat,
      l.foldl (fun acc i => acc.bind (fun node =>
        insertBody fuel node i (ps.getD i default) ps)) none =
        none := by
  intro l
  induction l with
  | nil => rfl
  | cons i t ihl => exact ihl

theorem insertFold_inv (ps : List Vec3) (fuel : Nat) :
    ∀ (l : List Nat) (node r : OctreeNode),
      (∀ i ∈ l, i < ps.length) →
      treeInv ps node →
      (∀ p ∈ ps, inCube node.data p) →
      l.foldl (fun acc i => acc.bind (fun nd2 =>
        insertBody fuel nd2 i (ps.getD i default) ps)) (some node) =
        some r →
      treeInv ps r := by
  intro l
  induction l with
  | nil =>
    intro node r _ hinv _ h
    simp only [List.foldl] at h
    injection h with h2
    subst h2
    exact hinv
  | cons i t ihl =>
    intro node r hlt hinv hcube h
    simp only [List.foldl, Option.some_bind] at h
    cases hins : insertBody fuel node i (ps.getD i default) ps with
    | none =>
      rw [hins, bind_fold_none] at h
      exact Option.noConfusion h
    | some node1 =>
      rw [hins] at h
      have hi : i < ps.length := hlt i (List.mem_cons_self i t)
      have hpmem : ps.getD i default ∈ ps := by
        rw [List.getD_eq_getElem ps default hi]
        exact List.getElem_mem hi
      obtain ⟨t1, _, t3x, t3y, t3z, t3h, _⟩ :=
        insertBody_spec ps fuel node i (ps.getD i default) node1 hins
          hinv rfl (hcube _ hpmem)
      refine ihl node1 r
        (fun j hj => hlt j (List.mem_cons_of_mem i hj)) t1 ?_ h
      intro p hp
      exact inCube_congr t3x t3y t3z t3h p (hcube p hp)

theorem buildO_treeInv (fuel : Nat) (ps : List Vec3) (r : OctreeNode)
    (h : buildO fuel ps = some (some r)) : treeInv ps r := by
  cases ps with
  | nil =>
    simp only [buildO] at h
    injection h with h2
    exact Option.noConfusion h2
  | cons p0 rest =>
    simp only [buildO] at h
    cases hfold : insertAll fuel (p0 :: rest)
        (rootCube p0 (p0 :: rest)) with
    | none =>
      rw [hfold] at h
      simp at h
    | some r2 =>
      rw [hfold] at h
      simp only [] at h
      injection h with h2
      injection h2 with h3
      subst h3
      refine insertFold_inv (p0 :: rest) fuel
        (List.range (p0 :: rest).length) (rootCube p0 (p0 :: rest)) r2
        (fun i hi => List.mem_range.mp hi)
        (treeInv_createNode _ _ _ _ _)
        (fun p hp => rootCube_contains p0 (p0 :: rest) p hp) hfold

theorem insertBody_step_data (fuel : Nat) (nd : OctreeData)
    (hasC : Bool) (f : Fin 8 → OctreeNode) (i : Nat) (pos : Vec3)
    (ps : List Vec3) (n' : OctreeNode)
    (h : insertBody (fuel + 1) (.mk nd hasC f) i pos ps = some n') :
    n'.data.mass = nd.mass + 1 ∧
    n'.data.comX = (nd.comX * nd.mass + pos.x) / (nd.mass + 1) ∧
    n'.data.comY = (nd.comY * nd.mass + pos.y) / (nd.mass + 1) ∧
    n'.data.comZ = (nd.comZ * nd.mass + pos.z) / (nd.mass + 1) := by
  cases hasC with
  | true =>
    simp only [insertBody, eq_self_iff_true, if_true] at h
    cases hrec : insertBody fuel (childFor f nd (getOctant nd pos)) i
        pos ps with
    | none =>
      rw [hrec] at h
      simp at h
    | some child' =>
      rw [hrec] at h
      simp only [] at h
      injection h with h2
      subst h2
      exact ⟨rfl, rfl, rfl, rfl⟩
  | false =>
    simp only [insertBody, Bool.false_eq_true, if_false] at h
    by_cases hb : nd.bodyIndex = -1
    · rw [if_pos hb] at h
      injection h with h2
      subst h2
      exact ⟨rfl, rfl, rfl, rfl⟩
    · rw [if_neg hb] at h
      cases hrec1 : insertBody fuel
          (createNode
            (getChildCenter nd
              (getOctant nd (ps.getD nd.bodyIndex.toNat default))).x
            (getChildCenter nd
              (getOctant nd (ps.getD nd.bodyIndex.toNat default))).y
            (getChildCenter nd
              (getOctant nd (ps.getD nd.bodyIndex.toNat default))).z
            (nd.halfSize / 2))
          nd.bodyIndex.toNat (ps.getD nd.bodyIndex.toNat default)
          ps with
      | none =>
        rw [hrec1] at h
        simp at h
      | some reChild =>
        rw [hrec1] at h
        simp only [] at h
        cases hrec2 : insertBody fuel
            (childFor
              (Function.update noChildren
                (getOctant nd (ps.getD nd.bodyIndex.toNat default))
                reChild) nd (getOctant nd pos)) i pos ps with
        | none =>
          rw [hrec2] at h
          simp at h
        | some child' =>
          rw [hrec2] at h
          simp only [] at h
          injection h with h2
          subst h2
          exact ⟨rfl, rfl, rfl, rfl⟩

/-- C6: every successful insertion step updates the node it enters by
the running-average rule (mass incremented by one, each
center-of-mass coordinate set to `(oldCoM * oldMass + newPos) /
(oldMass + 1)`; the recursive calls apply the same rule to every
region on the insertion path), and after a successful `build` every
allocated octree node's mass equals the number of bodies in its
region while its center of mass is the arithmetic mean of those
bodies' positions. -/
theorem c6_mass_com :
    (∀ (fuel : Nat) (nd : OctreeData) (hasC : Bool)
        (f : Fin 8 → OctreeNode) (i : Nat) (pos : Vec3)
        (ps : List Vec3) (n' : OctreeNode),
        insertBody (fuel + 1) (.mk nd hasC f) i pos ps = some n' →
        n'.data.mass = nd.mass + 1 ∧
        n'.data.comX = (nd.comX * nd.mass + pos.x) / (nd.mass + 1) ∧
        n'.data.comY = (nd.comY * nd.mass + pos.y) / (nd.mass + 1) ∧
        n'.data.comZ = (nd.comZ * nd.mass + pos.z) / (nd.mass + 1)) ∧
    (∀ (fuel : Nat) (ps : List Vec3) (r : OctreeNode),
        buildO fuel ps = some (some r) →
        ∀ m ∈ subnodes r,
          m.data.mass = ((bodies m).card : ℚ) ∧
          ((bodies m).card ≠ 0 →
            m.data.comX = ((bodies m).map
              (fun j => (ps.getD j default).x)).sum /
              ((bodies m).card : ℚ) ∧
            m.data.comY = ((bodies m).map
              (fun j => (ps.getD j default).y)).sum /
              ((bodies m).card : ℚ) ∧
            m.data.comZ = ((bodies m).map
              (fun j => (ps.getD j default).z)).sum /
              ((bodies m).card : ℚ))) := by
  constructor
  · intro fuel nd hasC f i pos ps n' h
    exact insertBody_step_data fuel nd hasC f i pos ps n' h
  · intro fuel ps r h m hm
    have hinv := buildO_treeInv fuel ps r h
    obtain ⟨⟨h1, h2, h3, h4, _, _⟩, _⟩ := hinv m hm
    refine ⟨h1, ?_⟩
    intro hc
    have hcq : ((bodies m).card : ℚ) ≠ 0 := Nat.cast_ne_zero.mpr hc
    rw [h1] at h2 h3 h4
    refine ⟨?_, ?_, ?_⟩
    · rw [eq_div_iff hcq, mul_comm]
      exact h2
    · rw [eq_div_iff hcq, mul_comm]
      exact h3
    · rw [eq_div_iff hcq, mul_comm]
      exact h4

theorem c6_mass_com_witness :
    insertBody (0 + 1) (.mk c6Data false noChildren) 0 ⟨1, 2, 3⟩ c6ps =
      some c6Node ∧
    c6Node.data.mass = 0 + 1 ∧
    buildO 1 c6ps = some (some c6Tree) ∧
    ∀ m ∈ subnodes c6Tree,
      m.data.mass = ((bodies m).card : ℚ) ∧
      ((bodies m).card ≠ 0 →
        m.data.comX = ((bodies m).map
          (fun j => (c6ps.getD j default).x)).sum /
          ((bodies m).card : ℚ) ∧
        m.data.comY = ((bodies m).map
          (fun j => (c6ps.getD j default).y)).sum /
          ((bodies m).card : ℚ) ∧
        m.data.comZ = ((bodies m).map
          (fun j => (c6ps.getD j default).z)).sum /
          ((bodies m).card : ℚ)) :=
  ⟨rfl,
    (c6_mass_com.1 0 c6Data false noChildren 0 ⟨1, 2, 3⟩ c6ps c6Node
      rfl).1,
    rfl,
    c6_mass_com.2 1 c6ps c6Tree rfl⟩

theorem sum_map_flatten {α β : Type} [AddCommMonoid β] (pf : α → β) :
    ∀ ls : List (List α),
      ((ls.flatten).map pf).sum =
        (ls.map (fun l => (l.map pf).sum)).sum := by
  intro ls
  induction ls with
  | nil => rfl
  | cons l t ihl =>
    simp [List.flatten_cons, List.map_append, List.sum_append, ihl]
    rfl

theorem calcForceRec_eq_approx (sq : ℚ → ℚ) (theta rep : ℚ) (i : Nat)
    (pos : Vec3) :
    ∀ n : OctreeNode,
      calcForceRec sq theta rep i pos n =
        ((approxNodes sq theta i pos n).map
          (pointForce sq rep pos)).sum := by
  intro n
  induction n with
  | empty => rfl
  | mk d hasC f ihf =>
    simp only [calcForceRec, approxNodes]
    by_cases hm0 : d.mass = 0
    · rw [if_pos hm0, if_pos hm0]
      rfl
    · rw [if_neg hm0, if_neg hm0]
      by_cases hbi : d.bodyIndex = (i : Int)
      · rw [if_pos hbi, if_pos hbi]
        rfl
      · rw [if_neg hbi, if_neg hbi]
        by_cases hr : hasC = false ∨
            d.halfSize * 2 / sq
              ((d.comX - pos.x) * (d.comX - pos.x) +
               (d.comY - pos.y) * (d.comY - pos.y) +
               (d.comZ - pos.z) * (d.comZ - pos.z) + 1 / 10) < theta
        · rw [if_pos hr, if_pos hr]
          simp
        · rw [if_neg hr, if_neg hr]
          rw [sum_map_flatten, List.map_map]
          simp only [ihf]
          rw [Fin.sum_univ_def]
          rfl

theorem approxNodes_mem (sq : ℚ → ℚ) (theta : ℚ) (i : Nat)
    (pos : Vec3) :
    ∀ n : OctreeNode, ∀ m ∈ approxNodes sq theta i pos n,
      m.data.mass ≠ 0 ∧ m.data.bodyIndex ≠ (i : Int) ∧
      (m.hasChildren = false ∨
        m.data.halfSize * 2 / sq
          ((m.data.comX - pos.x) * (m.data.comX - pos.x) +
           (m.data.comY - pos.y) * (m.data.comY - pos.y) +
           (m.data.comZ - pos.z) * (m.data.comZ - pos.z) + 1 / 10)
          < theta) := by
  intro n
  induction n with
  | empty =>
    intro m hm
    simp [approxNodes] at hm
  | mk d hasC f ihf =>
    intro m hm
    simp only [approxNodes] at hm
    by_cases hm0 : d.mass = 0
    · rw [if_pos hm0] at hm
      simp at hm
    · rw [if_neg hm0] at hm
      by_cases hbi : d.bodyIndex = (i : Int)
      · rw [if_pos hbi] at hm
        simp at hm
      · rw [if_neg hbi] at hm
        by_cases hr : hasC = false ∨
            d.halfSize * 2 / sq
              ((d.comX - pos.x) * (d.comX - pos.x) +
               (d.comY - pos.y) * (d.comY - pos.y) +
               (d.comZ - pos.z) * (d.comZ - pos.z) + 1 / 10) < theta
        · rw [if_pos hr] at hm
          simp only [List.mem_singleton] at hm
          subst hm
          exact ⟨hm0, hbi, hr⟩
        · rw [if_neg hr] at hm
          simp only [List.mem_flatten, List.mem_map,
            List.mem_finRange] at hm
          obtain ⟨l, ⟨j, _, hl⟩, hml⟩ := hm
          subst hl
          exact ihf j m hml

/-- C7: a force query against the `null` root produced by building
from zero positions returns the zero vector; a region whose stored
leaf index equals the queried body contributes nothing; and the
recursive force is exactly the sum of single point-mass contributions
(`pointForce`, softened inverse-square directed away from the
center of mass) over the approximation regions — precisely those
visited regions that are childless or satisfy the
`2·halfSize / dist < θ` opening criterion, each populated and not the
queried body's own leaf. -/
theorem c7_force_characterization :
    (∀ (fuel : Nat) (sq : ℚ → ℚ) (theta rep : ℚ) (i : Nat)
        (pos : Vec3) (root : Option OctreeNode),
        buildO fuel [] = some root →
        calculateForce sq theta rep root i pos = 0) ∧
    (∀ (sq : ℚ → ℚ) (theta rep : ℚ) (i : Nat) (pos : Vec3)
        (d : OctreeData) (hasC : Bool) (f : Fin 8 → OctreeNode),
        d.bodyIndex = (i : Int) →
        calcForceRec sq theta rep i pos (.mk d hasC f) = 0) ∧
    (∀ (sq : ℚ → ℚ) (theta rep : ℚ) (i : Nat) (pos : Vec3)
        (n : OctreeNode),
        calcForceRec sq theta rep i pos n =
          ((approxNodes sq theta i pos n).map
            (pointForce sq rep pos)).sum) ∧
    (∀ (sq : ℚ → ℚ) (theta : ℚ) (i : Nat) (pos : Vec3)
        (n : OctreeNode), ∀ m ∈ approxNodes sq theta i pos n,
        m.data.mass ≠ 0 ∧ m.data.bodyIndex ≠ (i : Int) ∧
        (m.hasChildren = false ∨
          m.data.halfSize * 2 / sq
            ((m.data.comX - pos.x) * (m.data.comX - pos.x) +
             (m.data.comY - pos.y) * (m.data.comY - pos.y) +
             (m.data.comZ - pos.z) * (m.data.comZ - pos.z) + 1 / 10)
            < theta)) := by
  refine ⟨?_, ?_, ?_, ?_⟩
  · intro fuel sq theta rep i pos root h
    simp only [buildO] at h
    injection h with h2
    subst h2
    rfl
  · intro sq theta rep i pos d hasC f hbi
    simp only [calcForceRec]
    by_cases hm0 : d.mass = 0
    · rw [if_pos hm0]
    · rw [if_neg hm0, if_pos hbi]
  · intro sq theta rep i pos n
    exact calcForceRec_eq_approx sq theta rep i pos n
  · intro sq theta i pos n
    exact approxNodes_mem sq theta i pos n

theorem c7_force_characterization_witness :
    buildO 1 [] = some none ∧
    calculateForce c7Sq (7 / 10) 50 none 0 c7Pos = 0 ∧
    c7Data.bodyIndex = ((0 : Nat) : Int) ∧
    calcForceRec c7Sq (7 / 10) 50 0 c7Pos (.mk c7Data false noChildren)
      = 0 ∧
    (c7Node.data.mass ≠ 0 ∧
      c7Node.data.bodyIndex ≠ ((1 : Nat) : Int) ∧
      (c7Node.hasChildren = false ∨
        c7Node.data.halfSize * 2 / c7Sq
          ((c7Node.data.comX - c7Pos.x) *
            (c7Node.data.comX - c7Pos.x) +
           (c7Node.data.comY - c7Pos.y) *
            (c7Node.data.comY - c7Pos.y) +
           (c7Node.data.comZ - c7Pos.z) *
            (c7Node.data.comZ - c7Pos.z) + 1 / 10)
          < 7 / 10)) :=
  ⟨rfl,
    c7_force_characterization.1 1 c7Sq (7 / 10) 50 0 c7Pos none rfl,
    rfl,
    c7_force_characterization.2.1 c7Sq (7 / 10) 50 0 c7Pos c7Data
      false noChildren rfl,
    c7_force_characterization.2.2.2 c7Sq (7 / 10) 1 c7Pos c7Node
      c7Node (List.mem_cons_self c7Node [])⟩


theorem updAt_length {α : Type} (g : α → α) :
    ∀ (l : List α) (k : Nat), (updAt l k g).length = l.length := by
  intro l
  induction l with
  | nil => intro k; rfl
  | cons x t ihl =>
    intro k
    cases k with
    | zero => rfl
    | succ k2 => simp [updAt, ihl]

theorem placeRings_length (cfg : LayoutConfig) (ops : MathOps)
    (nodes : List LayoutNode) :
    (placeRings cfg ops nodes).length = nodes.length := by
  simp [placeRings]

theorem initializePositions_length (cfg : LayoutConfig)
    (ops : MathOps) (nodes : List LayoutNode) (cid : String) :
    (initializePositions cfg ops nodes cid).length = nodes.length := by
  simp only [initializePositions]
  cases hidx : (placeRings cfg ops nodes).findIdx?
      (fun n => n.id = cid) with
  | none => exact placeRings_length cfg ops nodes
  | some k =>
    exact (updAt_length _ _ _).trans (placeRings_length cfg ops nodes)

theorem repulseStep_length (cfg : LayoutConfig) (ops : MathOps)
    (nodes : List LayoutNode) (pr : Nat × Nat) :
    (repulseStep cfg ops nodes pr).length = nodes.length := by
  simp only [repulseStep]
  rw [updAt_length, updAt_length]

theorem applyRepulsionDirect_length (cfg : LayoutConfig)
    (ops : MathOps) (nodes : List LayoutNode) :
    (applyRepulsionDirect cfg ops nodes).length = nodes.length :=
  foldl_preserve
    (P := fun (s : List LayoutNode) => s.length = nodes.length)
    (fun s pr _ hs => (repulseStep_length cfg ops s pr).trans hs)
    nodes rfl

theorem applyRepulsionBH_length (fuel : Nat) (cfg : LayoutConfig)
    (ops : MathOps) (nodes out : List LayoutNode)
    (h : applyRepulsionBH fuel cfg ops nodes = some out) :
    out.length = nodes.length := by
  simp only [applyRepulsionBH] at h
  cases hb : buildO fuel (nodes.map (fun n => n.position)) with
  | none =>
    rw [hb] at h
    simp at h
  | some root =>
    rw [hb] at h
    simp only [] at h
    injection h with h2
    subst h2
    simp

theorem applyRepulsion_length (fuel : Nat) (cfg : LayoutConfig)
    (ops : MathOps) (useBH : Bool) (nodes out : List LayoutNode)
    (h : applyRepulsion fuel cfg ops useBH nodes = some out) :
    out.length = nodes.length := by
  cases useBH with
  | true =>
    simp only [applyRepulsion, eq_self_iff_true, if_true] at h
    exact applyRepulsionBH_length fuel cfg ops nodes out h
  | false =>
    simp only [applyRepulsion, Bool.false_eq_true, if_false] at h
    injection h with h2
    subst h2
    exact applyRepulsionDirect_length cfg ops nodes

theorem attractStep_length (cfg : LayoutConfig) (ops : MathOps)
    (nodes : List LayoutNode) (e : GraphEdge) :
    (attractStep cfg ops nodes e).length = nodes.length := by
  simp only [attractStep]
  cases h1 : lastIdxOf nodes e.sourceId with
  | none => rfl
  | some si =>
    cases h2 : lastIdxOf nodes e.targetId with
    | none => rfl
    | some ti =>
      simp only []
      rw [updAt_length, updAt_length]

theorem applyAttraction_length (cfg : LayoutConfig) (ops : MathOps)
    (edges : List GraphEdge) (nodes : List LayoutNode) :
    (applyAttraction cfg ops edges nodes).length = nodes.length :=
  foldl_preserve
    (P := fun (s : List LayoutNode) => s.length = nodes.length)
    (fun s e _ hs => (attractStep_length cfg ops s e).trans hs)
    nodes rfl

theorem applyCenterForce_length (cfg : LayoutConfig)
    (nodes : List LayoutNode) :
    (applyCenterForce cfg nodes).length = nodes.length := by
  simp [applyCenterForce]

theorem applyGenerationForce_length (cfg : LayoutConfig)
    (nodes : List LayoutNode) :
    (applyGenerationForce cfg nodes).length = nodes.length := by
  simp [applyGenerationForce]

theorem simulationStep_length (fuel : Nat) (cfg : LayoutConfig)
    (ops : MathOps) (useBH : Bool) (edges : List GraphEdge)
    (progress : ℚ) (nodes out : List LayoutNode)
    (h : simulationStep fuel cfg ops useBH edges nodes progress =
      some out) :
    out.length = nodes.length := by
  simp only [simulationStep] at h
  cases hrep : applyRepulsion fuel cfg ops useBH
      (nodes.map (fun n =>
        { n with velocity := (⟨0, 0, 0⟩ : Vec3) })) with
  | none =>
    rw [hrep] at h
    simp at h
  | some n1 =>
    rw [hrep] at h
    simp only [] at h
    injection h with h2
    subst h2
    have hl1 := applyRepulsion_length fuel cfg ops useBH _ n1 hrep
    rw [List.length_map] at hl1
    rw [List.length_map, applyGenerationForce_length,
      applyCenterForce_length, applyAttraction_length]
    exact hl1

theorem simLoop_length (fuel : Nat) (cfg : LayoutConfig)
    (ops : MathOps) (useBH : Bool) (edges : List GraphEdge) :
    ∀ (k i : Nat) (nodes out : List LayoutNode),
      simLoop fuel cfg ops useBH edges k i nodes = some out →
      out.length = nodes.length := by
  intro k
  induction k with
  | zero =>
    intro i nodes out h
    simp only [simLoop] at h
    injection h with h2
    subst h2
    rfl
  | succ k2 ih =>
    intro i nodes out h
    simp only [simLoop] at h
    cases hstep : simulationStep fuel cfg ops useBH edges nodes
        ((i : ℚ) / (cfg.iterations : ℚ)) with
    | none =>
      rw [hstep] at h
      simp at h
    | some n2 =>
      rw [hstep] at h
      simp only [] at h
      exact (ih (i + 1) n2 out h).trans
        (simulationStep_length fuel cfg ops useBH edges _ nodes n2
          hstep)

theorem centerLayout_length (nodes : List LayoutNode) :
    (centerLayout nodes).length = nodes.length := by
  simp [centerLayout]

theorem sum_map_sub_const {α : Type} (g : α → ℚ) (c : ℚ) :
    ∀ l : List α,
      (l.map (fun a => g a - c)).sum = (l.map g).sum - l.length * c
    := by
  intro l
  induction l with
  | nil => simp
  | cons x t ihl =>
    simp only [List.map_cons, List.sum_cons, List.length_cons, ihl]
    push_cast
    ring

theorem map_center_x (ns : List LayoutNode) (cx cy cz : ℚ) :
    ((ns.map (fun n => ({ n with position :=
        ⟨n.position.x - cx, n.position.y - cy, n.position.z - cz⟩ }
        : LayoutNode))).map (fun n => n.position.x)) =
      ns.map (fun n => n.position.x - cx) := by
  rw [List.map_map]
  rfl

theorem map_center_y (ns : List LayoutNode) (cx cy cz : ℚ) :
    ((ns.map (fun n => ({ n with position :=
        ⟨n.position.x - cx, n.position.y - cy, n.position.z - cz⟩ }
        : LayoutNode))).map (fun n => n.position.y)) =
      ns.map (fun n => n.position.y - cy) := by
  rw [List.map_map]
  rfl

theorem map_center_z (ns : List LayoutNode) (cx cy cz : ℚ) :
    ((ns.map (fun n => ({ n with position :=
        ⟨n.position.x - cx, n.position.y - cy, n.position.z - cz⟩ }
        : LayoutNode))).map (fun n => n.position.z)) =
      ns.map (fun n => n.position.z - cz) := by
  rw [List.map_map]
  rfl

theorem centerLayout_sum (ns : List LayoutNode) (h : ns ≠ []) :
    ((centerLayout ns).map (fun n => n.position.x)).sum = 0 ∧
    ((centerLayout ns).map (fun n => n.position.y)).sum = 0 ∧
    ((centerLayout ns).map (fun n => n.position.z)).sum = 0 := by
  have hlq : ((ns.length : ℚ)) ≠ 0 :=
    Nat.cast_ne_zero.mpr
      (fun hc => h (List.eq_nil_of_length_eq_zero hc))
  refine ⟨?_, ?_, ?_⟩
  · simp only [centerLayout]
    rw [map_center_x, sum_map_sub_const, mul_comm,
      div_mul_cancel₀ _ hlq, sub_self]
  · simp only [centerLayout]
    rw [map_center_y, sum_map_sub_const, mul_comm,
      div_mul_cancel₀ _ hlq, sub_self]
  · simp only [centerLayout]
    rw [map_center_z, sum_map_sub_const, mul_comm,
      div_mul_cancel₀ _ hlq, sub_self]

/-- C9: when `calculate` completes on a non-empty node list, the
final centering pass makes the positions sum — hence their mean —
exactly zero on every axis, and the node count is preserved. -/
theorem c9_layout_centering (fuel : Nat) (cfg : LayoutConfig)
    (ops : MathOps) (nodes : List LayoutNode)
    (edges : List GraphEdge) (cid : String)
    (result : List LayoutNode) (hne : nodes ≠ [])
    (h : calculate fuel cfg ops nodes edges cid = some result) :
    result.length = nodes.length ∧
    (result.map (fun n => n.position.x)).sum = 0 ∧
    (result.map (fun n => n.position.y)).sum = 0 ∧
    (result.map (fun n => n.position.z)).sum = 0 := by
  simp only [calculate] at h
  cases hsim : simLoop fuel cfg ops (decide (100 < nodes.length))
      edges cfg.iterations 0
      (initializePositions cfg ops nodes cid) with
  | none =>
    rw [hsim] at h
    simp at h
  | some ns =>
    rw [hsim] at h
    simp only [] at h
    injection h with h2
    subst h2
    have hlen : ns.length = nodes.length := by
      rw [simLoop_length fuel cfg ops (decide (100 < nodes.length))
        edges cfg.iterations 0 _ ns hsim]
      exact initializePositions_length cfg ops nodes cid
    have hnz : ns ≠ [] := by
      intro hc
      rw [hc] at hlen
      exact hne (List.eq_nil_of_length_eq_zero hlen.symm)
    obtain ⟨s1, s2, s3⟩ := centerLayout_sum ns hnz
    exact ⟨(centerLayout_length ns).trans hlen, s1, s2, s3⟩

theorem c9_layout_centering_witness :
    c9Nodes ≠ [] ∧
    calculate 1 c9Cfg c9Ops c9Nodes [] "A" = some c9Result ∧
    (c9Result.length = c9Nodes.length ∧
     (c9Result.map (fun n => n.position.x)).sum = 0 ∧
     (c9Result.map (fun n => n.position.y)).sum = 0 ∧
     (c9Result.map (fun n => n.position.z)).sum = 0) :=
  ⟨List.cons_ne_nil _ _, rfl,
    c9_layout_centering 1 c9Cfg c9Ops c9Nodes [] "A" c9Result
      (List.cons_ne_nil _ _) rfl⟩

end F8
